import Mathlib

/-!
# Linux framebuffer backend (bcdevices/fyne, `internal/driver/linuxfb`)

A shallow embedding of the two framebuffer device variants (`fb32bpp`,
`fb565le`) and of the `linuxfb` driver: its window bookkeeping, the dirty flag
of its canvas, one tick of its draw loop and the `select` of its control loop,
followed by theorems about them.

Conventions of the embedding
* Go `int` is a 64-bit two's-complement integer: arithmetic on pixel offsets is
  done in `Int` and wrapped by `Go.wrapInt`.
* A byte slice is a `List Nat`; indexing out of range panics in Go and is
  `none` here.  `uint8`, `uint16`, `uint32` values are naturals, truncated with
  an explicit `%` wherever the Go code converts or may overflow.
* An operation that may panic returns `Option`; `none` is the panic.
-/

namespace Go

/-- Two's-complement wrap-around of a mathematical integer into Go's 64-bit `int`. -/
def wrapInt (z : Int) : Int :=
  (z + 9223372036854775808) % 18446744073709551616 - 9223372036854775808

/-- Conversion to `uint8`. -/
def u8 (n : Nat) : Nat := n % 256

/-- Conversion to `uint16`. -/
def u16 (n : Nat) : Nat := n % 65536

/-- Conversion to (or overflow in) `uint32`. -/
def u32 (n : Nat) : Nat := n % 4294967296

/-- The expression `s[i]` on a byte slice: `none` is the index-out-of-range panic. -/
def index (s : List Nat) (i : Int) : Option Nat :=
  if 0 ≤ i then s[i.toNat]? else none

/-- The statement `s[i] = v` on a byte slice: `none` is the index-out-of-range panic. -/
def store (s : List Nat) (i : Int) (v : Nat) : Option (List Nat) :=
  if 0 ≤ i ∧ i.toNat < s.length then some (s.set i.toNat v) else none

/-- The builtin `copy(dst, src)`: overwrites the first `min (len dst) (len src)`
elements of `dst`. -/
def copy (dst src : List Nat) : List Nat :=
  src.take (min dst.length src.length) ++ dst.drop (min dst.length src.length)

/-- The function `binary.LittleEndian.PutUint16(s[i:i+2], v)`; the slice expression
panics unless `0 ≤ i ≤ i+2 ≤ cap s` (a mapped buffer has `cap = len`). -/
def putUint16LE (s : List Nat) (i : Int) (v : Nat) : Option (List Nat) :=
  if 0 ≤ i ∧ i ≤ wrapInt (i + 2) ∧ wrapInt (i + 2) ≤ s.length then
    some ((s.set i.toNat (u8 v)).set (i.toNat + 1) (u8 (v >>> 8)))
  else none

/-- The function `binary.LittleEndian.Uint16(s[i:i+2])`. -/
def uint16LE (s : List Nat) (i : Int) : Option Nat :=
  if 0 ≤ i ∧ i ≤ wrapInt (i + 2) ∧ wrapInt (i + 2) ≤ s.length then
    some (u16 (s.getD i.toNat 0 ||| u16 (s.getD (i.toNat + 1) 0 <<< 8)))
  else none

end Go

namespace GoColor

/-- The four `uint32` results of `color.Color.RGBA()` (alpha-premultiplied, 16 bits
per channel in a well-behaved colour). -/
structure RGBA32 where
  r : Nat
  g : Nat
  b : Nat
  a : Nat
deriving DecidableEq, Repr

/-- The type `color.NRGBA`: non-premultiplied, 8 bits per channel. -/
structure NRGBA where
  R : Nat
  G : Nat
  B : Nat
  A : Nat
deriving DecidableEq, Repr

/-- A value of the interface `color.Color`.  The framebuffer code distinguishes
only the dynamic types `color.NRGBA` and `fb.Pixel565`; every other colour is
observed through its `RGBA()` method alone and is represented by what that
method returns. -/
inductive Color where
  | nrgba (c : NRGBA)
  | pixel565 (p : Nat)
  | other (v : RGBA32)
deriving DecidableEq, Repr

/-- The method `color.NRGBA.RGBA` of the Go standard library. -/
def NRGBA.RGBA (c : NRGBA) : RGBA32 :=
  let r := Go.u32 (c.R ||| Go.u32 (c.R <<< 8))
  let g := Go.u32 (c.G ||| Go.u32 (c.G <<< 8))
  let b := Go.u32 (c.B ||| Go.u32 (c.B <<< 8))
  let a := Go.u32 (c.A ||| Go.u32 (c.A <<< 8))
  ⟨Go.u32 (r * c.A) / 0xff, Go.u32 (g * c.A) / 0xff, Go.u32 (b * c.A) / 0xff, a⟩

/-- Modelled from the spec: the method `Pixel565.RGBA` of the package
`github.com/ev3go/ev3dev/fb`, which is not part of the sources.  A 565 pixel
holds red in bits 11..15, green in bits 5..10 and blue in bits 0..4; each
channel is widened to 8 bits by shifting its high bit to bit 7 (so the 5-bit
red 31 reads back as 248), replicated into 16 bits, and the colour is fully
opaque. -/
def Pixel565.RGBA (p : Nat) : RGBA32 :=
  let r := (p / 2048 % 32) * 8
  let g := (p / 32 % 64) * 4
  let b := (p % 32) * 8
  ⟨r * 257, g * 257, b * 257, 0xffff⟩

/-- The method `RGBA()` of a colour. -/
def Color.RGBA : Color → RGBA32
  | .nrgba c => c.RGBA
  | .pixel565 p => Pixel565.RGBA p
  | .other v => v

/-- The conversion `color.NRGBAModel.Convert(c).(color.NRGBA)` of the Go standard
library. -/
def nrgbaModel (c : Color) : NRGBA :=
  match c with
  | .nrgba n => n
  | _ =>
    let v := c.RGBA
    if v.a = 0xffff then
      ⟨Go.u8 (v.r >>> 8), Go.u8 (v.g >>> 8), Go.u8 (v.b >>> 8), 0xff⟩
    else if v.a = 0 then
      ⟨0, 0, 0, 0⟩
    else
      let r := Go.u32 (v.r * 0xffff) / v.a
      let g := Go.u32 (v.g * 0xffff) / v.a
      let b := Go.u32 (v.b * 0xffff) / v.a
      ⟨Go.u8 (r >>> 8), Go.u8 (g >>> 8), Go.u8 (b >>> 8), Go.u8 (v.a >>> 8)⟩

/-- Modelled from the spec: the conversion `fb.RGB565Model.Convert(c).(fb.Pixel565)`
of the package `github.com/ev3go/ev3dev/fb`, which is not part of the sources.
A `Pixel565` is returned unchanged; any other colour has the 16-bit channels of
its `RGBA()` reduced to their top 5, 6 and 5 bits and packed as red@11,
green@5, blue@0. -/
def rgb565Model (c : Color) : Nat :=
  match c with
  | .pixel565 p => p
  | _ =>
    let v := c.RGBA
    Go.u16 ((v.r / 2048 % 32) * 2048 + (v.g / 1024 % 64) * 32 + v.b / 2048 % 32)

/-- The 8-bit view of a colour: the high byte of each 16-bit channel of `RGBA()`. -/
def Color.channels8 (c : Color) : NRGBA :=
  ⟨c.RGBA.r / 256, c.RGBA.g / 256, c.RGBA.b / 256, c.RGBA.a / 256⟩

end GoColor

namespace GoImage

/-- The type `image.Point`. -/
structure Point where
  X : Int
  Y : Int
deriving DecidableEq, Repr

/-- The type `image.Rectangle`. -/
structure Rectangle where
  Min : Point
  Max : Point
deriving DecidableEq, Repr

/-- The constructor `image.Rect(x0, y0, x1, y1)`, which orders its corners. -/
def Rect (x0 y0 x1 y1 : Int) : Rectangle :=
  let (x0, x1) := if x0 > x1 then (x1, x0) else (x0, x1)
  let (y0, y1) := if y0 > y1 then (y1, y0) else (y0, y1)
  ⟨⟨x0, y0⟩, ⟨x1, y1⟩⟩

/-- The method `Rectangle.Dx`: the width. -/
def Rectangle.Dx (r : Rectangle) : Int := r.Max.X - r.Min.X

/-- The method `Rectangle.Dy`: the height. -/
def Rectangle.Dy (r : Rectangle) : Int := r.Max.Y - r.Min.Y

/-- The method `Rectangle.Empty`. -/
def Rectangle.Empty (r : Rectangle) : Bool :=
  decide (r.Min.X ≥ r.Max.X ∨ r.Min.Y ≥ r.Max.Y)

/-- The method `Rectangle.Add`: translation by a point. -/
def Rectangle.Add (r : Rectangle) (p : Point) : Rectangle :=
  ⟨⟨Go.wrapInt (r.Min.X + p.X), Go.wrapInt (r.Min.Y + p.Y)⟩,
   ⟨Go.wrapInt (r.Max.X + p.X), Go.wrapInt (r.Max.Y + p.Y)⟩⟩

/-- The method `Rectangle.Intersect`. -/
def Rectangle.Intersect (r s : Rectangle) : Rectangle :=
  let minX := if r.Min.X < s.Min.X then s.Min.X else r.Min.X
  let minY := if r.Min.Y < s.Min.Y then s.Min.Y else r.Min.Y
  let maxX := if r.Max.X > s.Max.X then s.Max.X else r.Max.X
  let maxY := if r.Max.Y > s.Max.Y then s.Max.Y else r.Max.Y
  let t : Rectangle := ⟨⟨minX, minY⟩, ⟨maxX, maxY⟩⟩
  if t.Empty then ⟨⟨0, 0⟩, ⟨0, 0⟩⟩ else t

/-- The method `Point.In`. -/
def Point.In (p : Point) (r : Rectangle) : Bool :=
  decide (r.Min.X ≤ p.X ∧ p.X < r.Max.X ∧ r.Min.Y ≤ p.Y ∧ p.Y < r.Max.Y)

/-- The type `image.NRGBA`: an in-memory image whose pixels are stored as
R, G, B, A bytes, row-major with the given stride. -/
structure NRGBA where
  Pix : List Nat
  Stride : Int
  Rect : Rectangle
deriving DecidableEq, Repr

/-- The method `(*image.NRGBA).PixOffset`. -/
def NRGBA.PixOffset (p : NRGBA) (x y : Int) : Int :=
  Go.wrapInt (Go.wrapInt (Go.wrapInt (y - p.Rect.Min.Y) * p.Stride)
    + Go.wrapInt (Go.wrapInt (x - p.Rect.Min.X) * 4))

/-- The method `(*image.NRGBA).At`; `none` is an index panic on a `Pix` that is too
short. -/
def NRGBA.At (p : NRGBA) (x y : Int) : Option GoColor.Color :=
  if !(Point.In ⟨x, y⟩ p.Rect) then some (.nrgba ⟨0, 0, 0, 0⟩)
  else
    let i := p.PixOffset x y
    if 0 ≤ i ∧ i ≤ Go.wrapInt (i + 4) ∧ Go.wrapInt (i + 4) ≤ p.Pix.length then
      some (.nrgba ⟨p.Pix.getD i.toNat 0, p.Pix.getD (i.toNat + 1) 0,
        p.Pix.getD (i.toNat + 2) 0, p.Pix.getD (i.toNat + 3) 0⟩)
    else none

end GoImage

namespace GoColor

/-- A colour whose stored fields fit their Go types: `uint8` channels for
`color.NRGBA`, a `uint16` for `fb.Pixel565`, and `RGBA()` results within
`[0, 0xffff]` (the contract of `color.Color`) for any other colour. -/
def Color.Valid : Color → Prop
  | .nrgba c => c.R < 256 ∧ c.G < 256 ∧ c.B < 256 ∧ c.A < 256
  | .pixel565 p => p < 65536
  | .other v => v.r ≤ 0xffff ∧ v.g ≤ 0xffff ∧ v.b ≤ 0xffff ∧ v.a ≤ 0xffff

instance (c : Color) : Decidable c.Valid := by
  cases c <;> unfold Color.Valid <;> infer_instance

end GoColor

namespace FbH

/-! The declarations of `fb32bpp/fb_h.go`.  The variant `fb565le` uses
declarations of the same names and fields. -/

/-- The struct `fb_bitfield` of `fb_h.go`. -/
structure fb_bitfield where
  offset : Nat
  length : Nat
  msb_right : Nat
deriving DecidableEq, Repr

/-- The named fields of the struct `fb_var_screeninfo` of `fb_h.go`. -/
structure fb_var_screeninfo where
  xres : Nat
  yres : Nat
  xres_virtual : Nat
  yres_virtual : Nat
  bits_per_pixel : Nat
  red : fb_bitfield
  green : fb_bitfield
  blue : fb_bitfield
deriving DecidableEq, Repr

/-- The named fields of the struct `fb_fix_screeninfo` of `fb_h.go`. -/
structure fb_fix_screeninfo where
  smemlen : Nat
  line_length : Nat
deriving DecidableEq, Repr

/-- The error value returned by `Open`: a system error number, or one of the two
`errors.New` messages. -/
inductive OpenError where
  | sys (errno : Nat)
  | unsupportedBitDepth
  | unsupportedColorModel
deriving DecidableEq, Repr

/-- A simulated device node: what each system call made by `Open` answers.
* `openFile`  : `os.OpenFile(device, O_RDWR, ModeDevice)`
* `getVar`    : the `FBIOGET_VSCREENINFO` request made by `getVarScreenInfo`
* `putVar u`  : the `FBIOPUT_VSCREENINFO` request with argument `u`
* `getVarAfterPut u` : the `FBIOGET_VSCREENINFO` request that follows a
  successful mode-set `u` (the configuration the hardware really took)
* `getFix`    : the `FBIOGET_FSCREENINFO` request made by `getFixScreenInfo`
* `mmap n`    : `syscall.Mmap(fd, 0, n, PROT_READ|PROT_WRITE, MAP_SHARED)` -/
structure DeviceNode where
  openFile : Except Nat Unit
  getVar : Except Nat fb_var_screeninfo
  putVar : fb_var_screeninfo → Except Nat Unit
  getVarAfterPut : fb_var_screeninfo → Except Nat fb_var_screeninfo
  getFix : Except Nat fb_fix_screeninfo
  mmap : Nat → Except Nat (List Nat)

/-- What a call of `Open` leaves behind besides its return value: whether the
file was opened, whether `file.Close()` was called, and whether `syscall.Mmap`
was called. -/
structure Effects where
  opened : Bool
  closed : Bool
  mmapCalled : Bool
deriving DecidableEq, Repr

/-- The nine channel-layout fields a device reports: offset, length and
`msb_right` of red, green and blue. -/
def layout (v : fb_var_screeninfo) : fb_bitfield × fb_bitfield × fb_bitfield :=
  (v.red, v.green, v.blue)

/-- The function `updateVarScreenInfo` of `fb565le/fb.go`: mode-set followed by a
fresh query. -/
def updateVarScreenInfo (node : DeviceNode) (update : fb_var_screeninfo) :
    Except Nat fb_var_screeninfo :=
  match node.putVar update with
  | .error errno => .error errno
  | .ok _ =>
    match node.getVarAfterPut update with
    | .error errno => .error errno
    | .ok info => .ok info

end FbH

namespace Fb32bpp
open GoColor GoImage FbH

/-- The colour model stored in a device. -/
inductive Model where
  | RGBAModel
deriving DecidableEq, Repr

/-- The struct `Device` of `fb32bpp/device.go` (the file handle is tracked by
`FbH.Effects`). -/
structure Device where
  pixels : List Nat
  pitch : Int
  bounds : Rectangle
  colorModel : Model
  flipped : Bool
deriving DecidableEq, Repr

/-- The channel layout `Open` accepts: red@16/8, green@8/8, blue@0/8, all with
`msb_right = 0`. -/
def expectedLayout : fb_bitfield × fb_bitfield × fb_bitfield :=
  (⟨16, 8, 0⟩, ⟨8, 8, 0⟩, ⟨0, 8, 0⟩)

/-- The function `Open` of `fb32bpp/device.go`, run against a simulated device
node. -/
def Open (node : DeviceNode) : Except OpenError Device × Effects :=
  match node.openFile with
  | .error err => (.error (.sys err), ⟨false, false, false⟩)
  | .ok _ =>
    match node.getVar with
    | .error err => (.error (.sys err), ⟨true, false, false⟩)
    | .ok varInfo =>
      let w := varInfo.xres_virtual
      let h := varInfo.yres_virtual
      if varInfo.bits_per_pixel ≠ 32 then
        (.error .unsupportedBitDepth, ⟨true, false, false⟩)
      else
        match node.getFix with
        | .error err => (.error (.sys err), ⟨true, false, false⟩)
        | .ok fixInfo =>
          if ¬ (varInfo.red.offset = 16 ∧ varInfo.red.length = 8 ∧ varInfo.red.msb_right = 0 ∧
              varInfo.green.offset = 8 ∧ varInfo.green.length = 8 ∧ varInfo.green.msb_right = 0 ∧
              varInfo.blue.offset = 0 ∧ varInfo.blue.length = 8 ∧ varInfo.blue.msb_right = 0) then
            (.error .unsupportedColorModel, ⟨true, true, false⟩)
          else
            match node.mmap fixInfo.smemlen with
            | .error err => (.error (.sys err), ⟨true, true, true⟩)
            | .ok pixels =>
              if h > w then
                (.ok ⟨pixels, fixInfo.line_length, Rect 0 0 h w, .RGBAModel, true⟩,
                  ⟨true, false, true⟩)
              else
                (.ok ⟨pixels, fixInfo.line_length, Rect 0 0 w h, .RGBAModel, false⟩,
                  ⟨true, false, true⟩)

/-- The byte offset computed by `Device.At`. -/
def atOffset (d : Device) (x y : Int) : Int :=
  if d.flipped then
    Go.wrapInt (Go.wrapInt (x * d.pitch) + Go.wrapInt (4 * y))
  else
    Go.wrapInt (Go.wrapInt (y * d.pitch) + Go.wrapInt (4 * x))

/-- The method `Device.At` of `fb32bpp/device.go`. -/
def At (d : Device) (x y : Int) : Option Color :=
  if x < d.bounds.Min.X ∨ x ≥ d.bounds.Max.X ∨
      y < d.bounds.Min.Y ∨ y ≥ d.bounds.Max.Y then
    some (.nrgba ⟨0, 0, 0, 0⟩)
  else
    let i := atOffset d x y
    match Go.index d.pixels (Go.wrapInt (i + 2)), Go.index d.pixels (Go.wrapInt (i + 1)),
        Go.index d.pixels i, Go.index d.pixels (Go.wrapInt (i + 3)) with
    | some r, some g, some b, some a => some (.nrgba ⟨r, g, b, a⟩)
    | _, _, _, _ => none

/-- The byte offset computed by `Device.Set`. -/
def setOffset (d : Device) (x y : Int) : Int :=
  if d.flipped then
    Go.wrapInt (Go.wrapInt (x * d.pitch) + Go.wrapInt (4 * Go.wrapInt (d.bounds.Max.Y - y)))
  else
    Go.wrapInt (Go.wrapInt (y * d.pitch) + Go.wrapInt (4 * x))

/-- The method `Device.Set` of `fb32bpp/device.go`. -/
def Set (d : Device) (x y : Int) (c : Color) : Option Device :=
  if x ≥ 0 ∧ x < d.bounds.Max.X ∧ y ≥ 0 ∧ y < d.bounds.Max.Y then
    if c.RGBA.a > 0 then
      let rgb := nrgbaModel c
      let i := setOffset d x y
      match Go.store d.pixels i rgb.B with
      | none => none
      | some p0 =>
        match Go.store p0 (Go.wrapInt (i + 1)) rgb.G with
        | none => none
        | some p1 =>
          match Go.store p1 (Go.wrapInt (i + 2)) rgb.R with
          | none => none
          | some p2 =>
            match Go.store p2 (Go.wrapInt (i + 3)) rgb.A with
            | none => none
            | some p3 => some { d with pixels := p3 }
    else some d
  else some d

end Fb32bpp

namespace GoImage

/-- The method `Point.Sub`. -/
def Point.Sub (p q : Point) : Point := ⟨Go.wrapInt (p.X - q.X), Go.wrapInt (p.Y - q.Y)⟩

/-- A value of the interface `image.Image` as `Draw` sees it: either a
`*image.NRGBA` (the dynamic type the fast path asks for) or any other image,
given by its bounds and its `At` method. -/
inductive Source where
  | nrgba (img : NRGBA)
  | other (bounds : Rectangle) (colorAt : Int → Int → GoColor.Color)

/-- The method `Bounds()` of a source image. -/
def Source.Bounds : Source → Rectangle
  | .nrgba img => img.Rect
  | .other b _ => b

/-- The method `At(x, y)` of a source image. -/
def Source.At : Source → Int → Int → Option GoColor.Color
  | .nrgba img, x, y => img.At x y
  | .other _ f, x, y => some (f x y)

/-- The function `clip` of `image/draw` for a nil mask: the destination rectangle
is clipped to the destination and source bounds and the source point is moved
accordingly. -/
def clip (dstBounds r srcBounds : Rectangle) (sp : Point) : Rectangle × Point :=
  let orig := r.Min
  let r1 := r.Intersect dstBounds
  let r2 := r1.Intersect (srcBounds.Add (orig.Sub sp))
  let dx := Go.wrapInt (r2.Min.X - orig.X)
  let dy := Go.wrapInt (r2.Min.Y - orig.Y)
  if dx = 0 ∧ dy = 0 then (r2, sp)
  else (r2, ⟨Go.wrapInt (sp.X + dx), Go.wrapInt (sp.Y + dy)⟩)

end GoImage

namespace Fb32bpp
open GoColor GoImage FbH

/-- One row of the general case of `draw.Draw` with `draw.Src` and no mask:
`dst.Set(x, y, src.At(sx, sy))` for `n` consecutive pixels. -/
def drawRow (src : Source) (d : Device) (y sy x0 sx0 : Int) (n : Nat) : Option Device :=
  (List.range n).foldlM
    (fun d k =>
      match src.At (sx0 + k) sy with
      | none => none
      | some c => Set d (x0 + k) y c)
    d

/-- The general (per-pixel) case of `draw.Draw(d, r, src, sp, draw.Src)` of the Go
standard library, which is the case a `Device` destination takes: after
clipping, every pixel of the rectangle is written with `Set`, row by row. -/
def drawGeneric (d : Device) (r : Rectangle) (src : Source) (sp : Point) : Option Device :=
  let (r, sp) := clip d.bounds r src.Bounds sp
  if r.Empty then some d
  else
    (List.range r.Dy.toNat).foldlM
      (fun d k => drawRow src d (r.Min.Y + k) (sp.Y + k) r.Min.X sp.X r.Dx.toNat)
      d

/-- The method `Device.Draw` of `fb32bpp/device.go`. -/
def Draw (d : Device) (r : Rectangle) (src : Source) (sp : Point) : Option Device :=
  if d.flipped then drawGeneric d r src sp
  else
    match src with
    | .nrgba img =>
      if r = d.bounds ∧ img.Rect = d.bounds ∧ sp.X = 0 ∧ sp.Y = 0 then
        some { d with pixels := Go.copy d.pixels img.Pix }
      else drawGeneric d r src sp
    | _ => drawGeneric d r src sp

end Fb32bpp

namespace Fb565le
open GoColor GoImage FbH

/-- The constant `displayWidth`. -/
def displayWidth : Nat := 640

/-- The constant `displayHeight`. -/
def displayHeight : Nat := 512

/-- The colour model stored in a device. -/
inductive Model where
  | RGB565Model
deriving DecidableEq, Repr

/-- The struct `Device` of `fb565le/device.go` (the file handle is tracked by
`FbH.Effects`). -/
structure Device where
  pixels : List Nat
  pitch : Int
  bounds : Rectangle
  colorModel : Model
deriving DecidableEq, Repr

/-- The assignments `Open` makes to the queried `varInfo` before the mode-set:
16 bits per pixel and the fixed display resolution. -/
def modeRequest (varInfo : fb_var_screeninfo) : fb_var_screeninfo :=
  { varInfo with
    bits_per_pixel := 16, xres := displayWidth, yres := displayHeight,
    xres_virtual := displayWidth, yres_virtual := displayHeight }

/-- The channel layout `Open` accepts: red@11/5, green@5/6, blue@0/5, all with
`msb_right = 0`. -/
def expectedLayout : fb_bitfield × fb_bitfield × fb_bitfield :=
  (⟨11, 5, 0⟩, ⟨5, 6, 0⟩, ⟨0, 5, 0⟩)

/-- The function `Open` of `fb565le/device.go`, run against a simulated device
node. -/
def Open (node : DeviceNode) : Except OpenError Device × Effects :=
  match node.openFile with
  | .error err => (.error (.sys err), ⟨false, false, false⟩)
  | .ok _ =>
    match node.getVar with
    | .error err => (.error (.sys err), ⟨true, false, false⟩)
    | .ok varInfo =>
      let varInfo := modeRequest varInfo
      match updateVarScreenInfo node varInfo with
      | .error err => (.error (.sys err), ⟨true, false, false⟩)
      | .ok varInfo =>
        match node.getFix with
        | .error err => (.error (.sys err), ⟨true, false, false⟩)
        | .ok fixInfo =>
          if ¬ (varInfo.red.offset = 11 ∧ varInfo.red.length = 5 ∧ varInfo.red.msb_right = 0 ∧
              varInfo.green.offset = 5 ∧ varInfo.green.length = 6 ∧ varInfo.green.msb_right = 0 ∧
              varInfo.blue.offset = 0 ∧ varInfo.blue.length = 5 ∧ varInfo.blue.msb_right = 0) then
            (.error .unsupportedColorModel, ⟨true, true, false⟩)
          else
            match node.mmap fixInfo.smemlen with
            | .error err => (.error (.sys err), ⟨true, true, true⟩)
            | .ok pixels =>
              (.ok ⟨pixels, fixInfo.line_length, Rect 0 0 displayWidth displayHeight,
                  .RGB565Model⟩,
                ⟨true, false, true⟩)

/-- The byte offset `y*d.pitch + 2*x` computed by `At` and `Set`. -/
def offset (d : Device) (x y : Int) : Int :=
  Go.wrapInt (Go.wrapInt (y * d.pitch) + Go.wrapInt (2 * x))

/-- The method `Device.At` of `fb565le/device.go`. -/
def At (d : Device) (x y : Int) : Option Color :=
  if x < d.bounds.Min.X ∨ x ≥ d.bounds.Max.X ∨
      y < d.bounds.Min.Y ∨ y ≥ d.bounds.Max.Y then
    some (.pixel565 0)
  else
    match Go.uint16LE d.pixels (offset d x y) with
    | none => none
    | some v => some (.pixel565 v)

/-- The method `Device.Set` of `fb565le/device.go`. -/
def Set (d : Device) (x y : Int) (c : Color) : Option Device :=
  if x ≥ 0 ∧ x < d.bounds.Max.X ∧ y ≥ 0 ∧ y < d.bounds.Max.Y then
    if c.RGBA.a > 0 then
      let rgb := Go.u16 (rgb565Model c)
      match Go.putUint16LE d.pixels (offset d x y) rgb with
      | none => none
      | some px => some { d with pixels := px }
    else some d
  else some d

end Fb565le

namespace Linuxfb

/-- The fields of the struct `fbWindow` of `fbwindow.go` that the window
bookkeeping reads or writes.  `onClosed` is the registered callback (`none` is
the nil function, `some k` the function named `k`); `content` is the canvas
content (`none` is nil, `some shown` a root object with its shown flag). -/
structure fbWindow where
  focused : Bool
  onClosed : Option Nat
  visible : Bool
  content : Option Bool
deriving DecidableEq, Repr

/-- The window list of the struct `fbDriver` of `driver.go`; a window is
referred to by its pointer, a natural number. -/
structure fbDriver where
  windows : List Nat
deriving DecidableEq, Repr

/-- A driver together with the memory it points into: the window objects
allocated so far (pointers `0 .. allocated-1`), and the trace of close callbacks
that have been invoked, oldest first. -/
structure World where
  driver : fbDriver
  win : Nat → fbWindow
  allocated : Nat
  fired : List Nat

/-- The window object written by `&fbWindow{canvas: canvas, driver: d}`: every
flag has its zero value and the fresh canvas has no content. -/
def newWindow : fbWindow := ⟨false, none, false, none⟩

/-- The function `NewFBDriver`: a driver with no window. -/
def NewFBDriver : World := ⟨⟨[]⟩, fun _ => newWindow, 0, []⟩

/-- The method `fbDriver.AllWindows`. -/
def AllWindows (s : World) : List Nat := s.driver.windows

/-- The method `fbDriver.CreateWindow`: allocates a window and appends it to the
list; returns the new pointer. -/
def CreateWindow (s : World) : World × Nat :=
  ({ s with
      driver := ⟨s.driver.windows ++ [s.allocated]⟩,
      win := Function.update s.win s.allocated newWindow,
      allocated := s.allocated + 1 },
    s.allocated)

/-- The statement `win.focused = b` on the window object at pointer `p`. -/
def setFocused (win : Nat → fbWindow) (p : Nat) (b : Bool) : Nat → fbWindow :=
  Function.update win p { win p with focused := b }

/-- The method `fbWindow.RequestFocus`: every window of `AllWindows()` is
unfocused, then the receiver is focused. -/
def RequestFocus (s : World) (w : Nat) : World :=
  let win := (AllWindows s).foldl (fun win p => setFocused win p false) s.win
  { s with win := setFocused win w true }

/-- The method `fbWindow.Show`. -/
def Show (s : World) (w : Nat) : World :=
  let s := RequestFocus s w
  let win := Function.update s.win w { s.win w with visible := true }
  let win := match (win w).content with
    | none => win
    | some _ => Function.update win w { win w with content := some true }
  { s with win := win }

/-- The method `fbWindow.Hide`. -/
def Hide (s : World) (w : Nat) : World :=
  let win := setFocused s.win w false
  let win := Function.update win w { win w with visible := false }
  let win := match (win w).content with
    | none => win
    | some _ => Function.update win w { win w with content := some false }
  { s with win := win }

/-- The method `fbWindow.SetOnClosed`. -/
def SetOnClosed (s : World) (w : Nat) (closed : Option Nat) : World :=
  { s with win := Function.update s.win w { s.win w with onClosed := closed } }

/-- The search loop of `removeWindow`: the number of windows before the first
one equal to `w`, or the length of the list when there is none. -/
def searchIndex : List Nat → Nat → Nat
  | [], _ => 0
  | window :: rest, w => if window = w then 0 else searchIndex rest w + 1

/-- The method `fbDriver.removeWindow`: `none` is the slice-bounds panic of
`d.windows[i+1:]` when `i+1` exceeds the length. -/
def removeWindow (d : fbDriver) (w : Nat) : Option fbDriver :=
  let i := searchIndex d.windows w
  if i + 1 ≤ d.windows.length then
    some ⟨d.windows.take i ++ d.windows.drop (i + 1)⟩
  else none

/-- The method `fbWindow.Close`.  The registered callback is recorded as an
event of the trace `fired`; it is taken not to call back into the driver. -/
def Close (s : World) (w : Nat) : Option World :=
  let fired := match (s.win w).onClosed with
    | none => s.fired
    | some k => s.fired ++ [k]
  let win := setFocused s.win w false
  match removeWindow s.driver w with
  | none => none
  | some d => some { s with driver := d, win := win, fired := fired }

/-- A call made by the application on a driver or on one of its windows. -/
inductive Call where
  | CreateWindow
  | RequestFocus (w : Nat)
  | Show (w : Nat)
  | Hide (w : Nat)
  | Close (w : Nat)
  | SetOnClosed (w : Nat) (closed : Option Nat)
deriving DecidableEq, Repr

/-- The window a call is made on, if any. -/
def Call.target : Call → Option Nat
  | .CreateWindow => none
  | .RequestFocus w => some w
  | .Show w => some w
  | .Hide w => some w
  | .Close w => some w
  | .SetOnClosed w _ => some w

/-- One call.  A method can only be called on a window object that exists
(a pointer returned by an earlier `CreateWindow`); `none` is a panic. -/
def step (s : World) (c : Call) : Option World :=
  match c with
  | .CreateWindow => some (CreateWindow s).1
  | .RequestFocus w => if w < s.allocated then some (RequestFocus s w) else none
  | .Show w => if w < s.allocated then some (Show s w) else none
  | .Hide w => if w < s.allocated then some (Hide s w) else none
  | .Close w => if w < s.allocated then Close s w else none
  | .SetOnClosed w k => if w < s.allocated then some (SetOnClosed s w k) else none

/-- A sequence of calls, each completing before the next starts. -/
def run (s : World) : List Call → Option World
  | [] => some s
  | c :: cs =>
    match step s c with
    | none => none
    | some s1 => run s1 cs

/-- The discipline under which every method call is made on a window that is
still in the driver's window list (it has not been closed), checked along the
run. -/
def onListed (s : World) : List Call → Bool
  | [] => true
  | c :: cs =>
    (match c.target with
      | none => true
      | some w => decide (w ∈ s.driver.windows)) &&
    (match step s c with
      | none => true
      | some s1 => onListed s1 cs)

/-- The pointers of the focused windows among all windows allocated so far. -/
def focusedWindows (s : World) : List Nat :=
  (List.range s.allocated).filter (fun p => (s.win p).focused)

/-- The focus invariant of the window bookkeeping: a focused window is in the
driver's list, at most one window is focused, the list has no duplicate and
holds only allocated windows. -/
def FocusInv (s : World) : Prop :=
  (∀ p, (s.win p).focused = true → p ∈ s.driver.windows) ∧
  (∀ p q, (s.win p).focused = true → (s.win q).focused = true → p = q) ∧
  s.driver.windows.Nodup ∧ (∀ p ∈ s.driver.windows, p < s.allocated)

/-- The part of the focus invariant that survives calls on closed windows: among
the windows of the driver's list at most one is focused; the list has no
duplicate and holds only allocated windows. -/
def ListedInv (s : World) : Prop :=
  (∀ p q, (s.win p).focused = true → (s.win q).focused = true →
    p ∈ s.driver.windows → q ∈ s.driver.windows → p = q) ∧
  s.driver.windows.Nodup ∧ (∀ p ∈ s.driver.windows, p < s.allocated)

end Linuxfb

namespace Fb32bpp
open GoColor GoImage FbH

/-- The device invariant for a device opened on a physical mode of `w` x `h`
pixels (`xres_virtual`, `yres_virtual`): the bounds are those `Open` builds
(swapped, with `flipped` set, exactly when `h > w`), the pitch is at least
4 x the width of the mode, and the buffer holds at least pitch x height bytes
(and, as every Go slice, fewer than 2^63). -/
def Invariant (d : Device) (w h : Nat) : Prop :=
  d.flipped = decide (h > w) ∧
  d.bounds = (if h > w then Rect 0 0 h w else Rect 0 0 w h) ∧
  4 * (w : Int) ≤ d.pitch ∧
  d.pitch * (h : Int) ≤ d.pixels.length ∧
  (d.pixels.length : Int) < 9223372036854775808

end Fb32bpp

namespace Linuxfb

/-- The windows of the list stand in creation order.  `CreateWindow` hands out the
pointers 0, 1, 2, ... in turn, so `p < q` says that window `p` was created
before window `q`; the list is strictly increasing and holds only windows
created so far. -/
def CreationOrder (s : World) : Prop :=
  s.driver.windows.Pairwise (fun p q => p < q) ∧ ∀ p ∈ s.driver.windows, p < s.allocated

/-- The method `fbDriver.CanvasForObject`: the canvas of
`d.windows[len(d.windows)-1]`, whatever the object.  A canvas is identified by the
window that owns it; `none` is the index panic on an empty list. -/
def CanvasForObject (s : World) : Option Nat :=
  let i : Int := (s.driver.windows.length : Int) - 1
  if 0 ≤ i then s.driver.windows[i.toNat]? else none

/-- The window that most recently received focus along a sequence of calls: the
target of the last `RequestFocus` or `Show`, if there is one. -/
def mostRecentlyFocused : List Call → Option Nat
  | [] => none
  | c :: cs =>
    match mostRecentlyFocused cs with
    | some w => some w
    | none =>
      match c with
      | .RequestFocus w => some w
      | .Show w => some w
      | _ => none

/-- The type `fyne.Size`. -/
structure Size where
  Width : Int
  Height : Int
deriving DecidableEq, Repr

/-- The type `fyne.Position`. -/
structure Position where
  X : Int
  Y : Int
deriving DecidableEq, Repr

/-- The method `Size.Add`. -/
def Size.Add (s o : Size) : Size :=
  ⟨Go.wrapInt (s.Width + o.Width), Go.wrapInt (s.Height + o.Height)⟩

/-- The method `Size.Subtract`. -/
def Size.Subtract (s o : Size) : Size :=
  ⟨Go.wrapInt (s.Width - o.Width), Go.wrapInt (s.Height - o.Height)⟩

/-- A value of the toolkit interface `fyne.CanvasObject`, reduced to what the
canvas asks of it: `Resize`, `Move`, `Show` and `Hide` assign the size, the
position and the shown flag, and `MinSize` reads a stored size. -/
structure CanvasObject where
  size : Size
  position : Position
  minSize : Size
  shown : Bool
deriving DecidableEq, Repr

/-- The fields of the struct `fbCanvas` of `fbcanvas.go` that its mutating methods
read or write.  `scale` is the bit pattern of the `float32`; `overlays` is the
list of the overlay stack; the focus manager, the handlers and the painter play
no part in the dirty flag and are left out. -/
structure fbCanvas where
  size : Size
  scale : Nat
  content : Option CanvasObject
  overlays : List CanvasObject
  padded : Bool
  dirty : Bool
deriving DecidableEq, Repr

/-- The function `NewCanvas`: size 10 x 10, scale 1.0, padded, no content, not
dirty. -/
def NewCanvas : fbCanvas := ⟨⟨10, 10⟩, 0x3f800000, none, [], true, false⟩

/-- The method `fbCanvas.isDirty`. -/
def fbCanvas.isDirty (c : fbCanvas) : Bool := c.dirty

/-- The method `fbCanvas.setDirty`. -/
def fbCanvas.setDirty (c : fbCanvas) (dirty : Bool) : fbCanvas := { c with dirty := dirty }

/-- The method `fbCanvas.Refresh`. -/
def fbCanvas.Refresh (c : fbCanvas) : fbCanvas := c.setDirty true

/-- The method `fbCanvas.Resize`; `padding` is the value of `theme.Padding()`. -/
def fbCanvas.Resize (padding : Int) (c : fbCanvas) (size : Size) : fbCanvas :=
  let content := c.content
  let overlays := c.overlays
  let padded := c.padded
  let c := { c with size := size }
  match content with
  | none => c
  | some content =>
    let c := { c with overlays := overlays.map (fun (overlay : CanvasObject) => { overlay with size := size }) }
    if padded then
      let content := { content with
        size := size.Subtract ⟨Go.wrapInt (padding * 2), Go.wrapInt (padding * 2)⟩ }
      let content := { content with position := ⟨padding, padding⟩ }
      { c with content := some content }
    else
      let content := { content with size := size }
      let content := { content with position := ⟨0, 0⟩ }
      { c with content := some content }

/-- The method `fbCanvas.SetContent`; `padding` is the value of `theme.Padding()`. -/
def fbCanvas.SetContent (padding : Int) (c : fbCanvas) (content : Option CanvasObject) :
    fbCanvas :=
  let c := { c with content := content }
  match content with
  | none => c
  | some content =>
    let pad : Size :=
      if c.padded then ⟨Go.wrapInt (padding * 2), Go.wrapInt (padding * 2)⟩ else ⟨0, 0⟩
    let c := c.Resize padding (content.minSize.Add pad)
    c.setDirty true

/-- The method `fbCanvas.SetPadded`. -/
def fbCanvas.SetPadded (padding : Int) (c : fbCanvas) (padded : Bool) : fbCanvas :=
  let c := { c with padded := padded }
  c.Resize padding c.size

/-- The method `fbCanvas.SetScale`. -/
def fbCanvas.SetScale (c : fbCanvas) (scale : Nat) : fbCanvas :=
  let c := { c with scale := scale }
  c.setDirty true

/-- A mutating call on a canvas, other than the repaint. -/
inductive CanvasCall where
  | SetContent (content : Option CanvasObject)
  | Resize (size : Size)
  | SetScale (scale : Nat)
  | Refresh
  | SetPadded (padded : Bool)
deriving DecidableEq, Repr

/-- The canvas after one mutating call. -/
def fbCanvas.call (padding : Int) (c : fbCanvas) : CanvasCall → fbCanvas
  | .SetContent content => c.SetContent padding content
  | .Resize size => c.Resize padding size
  | .SetScale scale => c.SetScale scale
  | .Refresh => c.Refresh
  | .SetPadded padded => c.SetPadded padding padded

/-- The draw loop's view of the driver: the windows, the canvas of each window
(window `w` owns canvas `w`), and the trace of device blits (`d.fbDev.Draw`
calls), one entry per blit naming the window painted, oldest first. -/
structure Screen where
  world : World
  canvas : Nat → fbCanvas
  blits : List Nat

/-- The method `fbDriver.windowList`. -/
def windowList (s : World) : List Nat := s.driver.windows

/-- The method `fbDriver.repaintWindow`: the canvas is captured, the image is
blitted to the device, then the dirty flag is cleared. -/
def repaintWindow (s : Screen) (w : Nat) : Screen :=
  { s with
    blits := s.blits ++ [w],
    canvas := Function.update s.canvas w ((s.canvas w).setDirty false) }

/-- The function `refreshWindow`. -/
def refreshWindow (s : Screen) (w : Nat) : Screen :=
  { s with canvas := Function.update s.canvas w ((s.canvas w).setDirty true) }

/-- The body of the loop over the windows in the `draw.C` case of
`startDrawThread`: a window that is not dirty or not visible is skipped, any
other is repainted. -/
def drawWindow (s : Screen) (w : Nat) : Screen :=
  let canvas := s.canvas w
  let visible := (s.world.win w).visible
  if !canvas.isDirty || !visible then s else repaintWindow s w

/-- One tick of the draw loop: the `draw.C` case of `startDrawThread`, over the
window list read at the start of the tick. -/
def drawTick (s : Screen) : Screen :=
  (windowList s.world).foldl drawWindow s

/-- The given number of consecutive ticks. -/
def drawTicks : Nat → Screen → Screen
  | 0, s => s
  | n + 1, s => drawTicks n (drawTick s)

/-- The method `fbWindow.Show` seen from the draw loop: focus and the visible
flag change as in `Show`, and a content object of the canvas is shown; the dirty
flag is not touched. -/
def Screen.Show (s : Screen) (w : Nat) : Screen :=
  { s with
    world := Linuxfb.Show s.world w,
    canvas :=
      match (s.canvas w).content with
      | none => s.canvas
      | some content =>
        Function.update s.canvas w
          { s.canvas w with content := some { content with shown := true } } }

/-- A Go channel variable: the nil channel, or a channel that was made, with
the number of goroutines blocked sending on it and whether it was closed. -/
inductive Chan where
  | nil
  | made (senders : Nat) (closed : Bool)
deriving DecidableEq, Repr

/-- Whether a receive from the channel can proceed, that is whether a `select`
case receiving from it can be chosen.  A receive from a nil channel blocks
forever. -/
def Chan.recvReady : Chan → Bool
  | .nil => false
  | .made senders closed => decide (0 < senders) || closed

/-- The control loop of `runFB` and what it reads: the channels `d.done` and
`d.drawDone` of the driver, `runFlag`, whether `eventTick` is still running, the
marshaled functions the loop has executed (oldest first), the number of lines
`Quit` has printed, whether the draw loop was signalled on `d.drawDone`, and
whether `runFB` has returned. -/
structure Control where
  done : Chan
  drawDone : Chan
  runFlag : Bool
  ticking : Bool
  executed : List Nat
  printed : Nat
  drawSignalled : Bool
  returned : Bool
deriving DecidableEq, Repr

/-- The control state once `runFB` has entered its loop on a driver made by
`NewFBDriver`: `new(fbDriver)` leaves `done` and `drawDone` nil and nothing
assigns them afterwards; `runFlag` is set and the ticker runs. -/
def runFBStarted : Control := ⟨.nil, .nil, true, true, [], 0, false, false⟩

/-- The method `fbDriver.Quit`: it prints a line and does nothing else. -/
def Quit (s : Control) : Control := { s with printed := s.printed + 1 }

/-- The cases of the `select` statement of `runFB`. -/
inductive Branch where
  | done
  | funcQueue (f : Nat)
  | eventTick
deriving DecidableEq, Repr

/-- One iteration of the `for`/`select` of `runFB` taking the given case; `none`
when that case cannot be chosen (its channel is not ready, or `runFB` has
returned).  The termination case stops the ticker, then sends on `d.drawDone`:
on a nil channel that send blocks forever and `runFB` does not return. -/
def runFBSelect (s : Control) (b : Branch) : Option Control :=
  if s.returned then none
  else
    match b with
    | .done =>
      if s.done.recvReady then
        match s.drawDone with
        | .nil => some { s with ticking := false }
        | .made _ _ => some { s with ticking := false, drawSignalled := true, returned := true }
      else none
    | .funcQueue f => some { s with executed := s.executed ++ [f] }
    | .eventTick => if s.ticking then some s else none

/-- What happens around the control loop: a call of `Quit` from any goroutine, or
one iteration of the loop. -/
inductive LoopEvent where
  | Quit
  | select (b : Branch)
deriving DecidableEq, Repr

/-- A sequence of events on the control loop; `none` when one of them cannot
happen. -/
def runControl (s : Control) : List LoopEvent → Option Control
  | [] => some s
  | .Quit :: es => runControl (Quit s) es
  | .select b :: es =>
    match runFBSelect s b with
    | none => none
    | some s1 => runControl s1 es

end Linuxfb

namespace Scenario
open GoColor GoImage FbH

/-- A device node whose every request succeeds: it reports `v` to the first
query, `after` once a mode has been set, `f` as fixed info, and maps a zeroed
buffer of the requested length. -/
def node (v after : fb_var_screeninfo) (f : fb_fix_screeninfo) : DeviceNode :=
  ⟨.ok (), .ok v, fun _ => .ok (), fun _ => .ok after, .ok f, fun n => .ok (List.replicate n 0)⟩

/-- A 32-bit portrait panel, 2 pixels wide and 3 high: `xres_virtual = 2`,
`yres_virtual = 3`, 8 bytes per line, 24 bytes of memory. -/
def portraitInfo : fb_var_screeninfo := ⟨2, 3, 2, 3, 32, ⟨16, 8, 0⟩, ⟨8, 8, 0⟩, ⟨0, 8, 0⟩⟩

/-- The device node of the portrait panel. -/
def portraitNode : DeviceNode := node portraitInfo portraitInfo ⟨24, 8⟩

/-- The device `fb32bpp.Open` returns for the portrait panel: bounds swapped to
3 x 2 and `flipped` set. -/
def portraitDevice : Fb32bpp.Device :=
  ⟨List.replicate 24 0, 8, ⟨⟨0, 0⟩, ⟨3, 2⟩⟩, .RGBAModel, true⟩

/-- A non-flipped 32-bit device of a single pixel. -/
def onePixelDevice : Fb32bpp.Device := ⟨[0, 0, 0, 0], 4, ⟨⟨0, 0⟩, ⟨1, 1⟩⟩, .RGBAModel, false⟩

/-- A fully opaque `*image.NRGBA` of a single pixel with R = 1, G = 2, B = 3. -/
def onePixelImage : GoImage.NRGBA := ⟨[1, 2, 3, 255], 4, ⟨⟨0, 0⟩, ⟨1, 1⟩⟩⟩

/-- The variable info of the 16-bit scenario device (red@11/5, green@5/6,
blue@0/5, 640 x 512), reporting the given bits-per-pixel. -/
def info565 (bpp : Nat) : fb_var_screeninfo :=
  ⟨640, 512, 640, 512, bpp, ⟨11, 5, 0⟩, ⟨5, 6, 0⟩, ⟨0, 5, 0⟩⟩

/-- The 16-bit scenario device node: pitch 1280 bytes, 655360 bytes of memory; it
reports `bpp` bits per pixel, also after the mode-set. -/
def node565 (bpp : Nat) : DeviceNode := node (info565 bpp) (info565 bpp) ⟨655360, 1280⟩

/-- The device `fb565le.Open` returns for the 16-bit scenario device. -/
def device565 : Fb565le.Device :=
  ⟨List.replicate 655360 0, 1280, ⟨⟨0, 0⟩, ⟨640, 512⟩⟩, .RGB565Model⟩

/-- A small 565 device: 2 x 2 pixels, pitch 4, every byte 7. -/
def small565 : Fb565le.Device := ⟨List.replicate 8 7, 4, ⟨⟨0, 0⟩, ⟨2, 2⟩⟩, .RGB565Model⟩

/-- A small non-flipped 32-bit device: 2 x 2 pixels, pitch 8, every byte 7. -/
def small32 : Fb32bpp.Device := ⟨List.replicate 16 7, 8, ⟨⟨0, 0⟩, ⟨2, 2⟩⟩, .RGBAModel, false⟩

/-- A device node whose first variable-info query fails with `ENOTTY` (25). -/
def nodeVarFails : DeviceNode :=
  { node portraitInfo portraitInfo ⟨24, 8⟩ with getVar := .error 25 }

/-- A device node whose fixed-info query fails with `ENOTTY` (25). -/
def nodeFixFails : DeviceNode :=
  { node portraitInfo (info565 16) ⟨24, 8⟩ with getFix := .error 25 }

/-- A device node that refuses the mode-set with `EINVAL` (22). -/
def nodePutFails : DeviceNode :=
  { node (info565 16) (info565 16) ⟨655360, 1280⟩ with putVar := fun _ => .error 22 }

/-- A device node that reports 16 bits per pixel with the 565 layout. -/
def node16 : DeviceNode := node (info565 16) (info565 16) ⟨655360, 1280⟩

/-- A variable info reporting 32 bits per pixel with red and blue exchanged
(red@0/8, green@8/8, blue@16/8). -/
def infoBGR : fb_var_screeninfo := ⟨2, 3, 2, 3, 32, ⟨0, 8, 0⟩, ⟨8, 8, 0⟩, ⟨16, 8, 0⟩⟩

/-- The device node reporting `infoBGR`, also after a mode-set. -/
def nodeBGR : DeviceNode := node infoBGR infoBGR ⟨24, 8⟩

/-- Two windows are created and shown in turn, then the second is closed. -/
def focusCalls : List Linuxfb.Call :=
  [.CreateWindow, .CreateWindow, .Show 0, .Show 1, .Close 1]

/-- The state the calls `focusCalls` lead to. -/
def focusWorld : Linuxfb.World :=
  (Linuxfb.run Linuxfb.NewFBDriver focusCalls).getD Linuxfb.NewFBDriver

/-- Two windows are created, then the first requests focus. -/
def canvasCalls : List Linuxfb.Call := [.CreateWindow, .CreateWindow, .RequestFocus 0]

/-- The state the calls `canvasCalls` lead to. -/
def canvasWorld : Linuxfb.World :=
  (Linuxfb.run Linuxfb.NewFBDriver canvasCalls).getD Linuxfb.NewFBDriver

/-- Three windows are created, the second is closed, then the first requests
focus. -/
def orderCalls : List Linuxfb.Call :=
  [.CreateWindow, .CreateWindow, .CreateWindow, .Close 1, .RequestFocus 0]

/-- The state the calls `orderCalls` lead to. -/
def orderWorld : Linuxfb.World :=
  (Linuxfb.run Linuxfb.NewFBDriver orderCalls).getD Linuxfb.NewFBDriver

/-- A root object of minimum size 4 x 3. -/
def box : Linuxfb.CanvasObject := ⟨⟨0, 0⟩, ⟨0, 0⟩, ⟨4, 3⟩, true⟩

/-- A driver with one window that was created and never shown, whose canvas was
refreshed: the window is listed, not visible, and its canvas is dirty. -/
def hiddenDirty : Linuxfb.Screen :=
  Linuxfb.refreshWindow
    ⟨(Linuxfb.CreateWindow Linuxfb.NewFBDriver).1, fun _ => Linuxfb.NewCanvas, []⟩ 0

/-- Two calls of `Quit` around a tick and a marshaled function. -/
def loopEvents : List Linuxfb.LoopEvent :=
  [.Quit, .select .eventTick, .select (.funcQueue 3), .Quit]

/-- The control state the events `loopEvents` lead to. -/
def loopControl : Linuxfb.Control :=
  (Linuxfb.runControl Linuxfb.runFBStarted loopEvents).getD Linuxfb.runFBStarted

/-- A canvas whose content `box` was set (with `theme.Padding()` = 4) and that has
been repainted since: it has content and is clean. -/
def paintedCanvas : Linuxfb.fbCanvas :=
  (Linuxfb.NewCanvas.SetContent 4 (some box)).setDirty false

end Scenario

open GoColor FbH Linuxfb

/-! ## Arithmetic of the Go runtime -/

/-- An integer in the range of a 64-bit `int` is not changed by the wrap-around. -/
theorem Go.wrapInt_eq (z : Int) (h0 : -9223372036854775808 ≤ z) (h1 : z < 9223372036854775808) :
    Go.wrapInt z = z := by
  unfold Go.wrapInt; omega

/-- Bitwise or of a byte with a value shifted left by 8 is their sum. -/
theorem Go.or_shift8 (lo hi : Nat) (h : lo < 256) : lo ||| (hi <<< 8) = hi * 256 + lo := by
  have hlt : lo < 2 ^ 8 := by simpa using h
  have := Nat.mul_add_lt_is_or hlt hi
  rw [Nat.shiftLeft_eq, Nat.lor_comm, Nat.mul_comm hi]
  norm_num at this ⊢
  omega

/-- Splitting a `uint16` into its two bytes and joining them again gives the value back. -/
theorem Go.le16_round (v : Nat) (h : v < 65536) :
    Go.u16 (Go.u8 v ||| Go.u16 (Go.u8 (v >>> 8) <<< 8)) = v := by
  have e : Go.u16 (Go.u8 (v >>> 8) <<< 8) = (v / 256 % 256) <<< 8 := by
    simp only [Go.u16, Go.u8, Nat.shiftRight_eq_div_pow, Nat.shiftLeft_eq]
    norm_num
    omega
  rw [e, Go.or_shift8 _ _ (by unfold Go.u8; omega)]
  unfold Go.u16 Go.u8
  omega

/-- Inside the buffer, `PutUint16` succeeds, keeps the length, writes the low byte
then the high byte, leaves the other bytes alone, and `Uint16` reads the value back. -/
theorem Go.uint16LE_putUint16LE (s : List Nat) (i : Int) (v : Nat) (hv : v < 65536)
    (h0 : 0 ≤ i) (h2 : i + 2 ≤ s.length) (hl : (s.length : Int) < 9223372036854775808) :
    ∃ t, Go.putUint16LE s i v = some t ∧ t.length = s.length ∧
      Go.uint16LE t i = some v ∧
      t[i.toNat]? = some (v % 256) ∧ t[i.toNat + 1]? = some (v / 256) ∧
      ∀ j, j ≠ i.toNat → j ≠ i.toNat + 1 → t[j]? = s[j]? := by
  have hw : Go.wrapInt (i + 2) = i + 2 := Go.wrapInt_eq _ (by omega) (by omega)
  have hc : 0 ≤ i ∧ i ≤ Go.wrapInt (i + 2) ∧ Go.wrapInt (i + 2) ≤ s.length := by
    rw [hw]; omega
  have hi1 : i.toNat + 1 < s.length := by omega
  refine ⟨(s.set i.toNat (Go.u8 v)).set (i.toNat + 1) (Go.u8 (v >>> 8)), ?_, ?_, ?_, ?_, ?_, ?_⟩
  · simp only [Go.putUint16LE, hc, and_self, if_true]
  · simp
  · have hc2 : 0 ≤ i ∧ i ≤ Go.wrapInt (i + 2) ∧ Go.wrapInt (i + 2) ≤
        ((((s.set i.toNat (Go.u8 v)).set (i.toNat + 1) (Go.u8 (v >>> 8))).length : Nat) : Int) := by
      simpa using hc
    simp only [Go.uint16LE, hc2, and_self, if_true, List.getD_eq_getElem?_getD]
    rw [List.getElem?_set_ne (by omega), List.getElem?_set_self (by omega),
      List.getElem?_set_self (by simpa using hi1)]
    simp only [Option.getD_some]
    rw [Go.le16_round v hv]
  · rw [List.getElem?_set_ne (by omega), List.getElem?_set_self (by omega)]; rfl
  · rw [List.getElem?_set_self (by simpa using hi1)]
    simp only [Go.u8, Nat.shiftRight_eq_div_pow]
    congr 1
    norm_num
    omega
  · intro j h1 h2
    rw [List.getElem?_set_ne (by omega), List.getElem?_set_ne (by omega)]

/-- An indexed store inside the slice succeeds. -/
theorem Go.store_eq (s : List Nat) (i : Int) (v : Nat) (h0 : 0 ≤ i) (h1 : i < s.length) :
    Go.store s i v = some (s.set i.toNat v) := by
  unfold Go.store
  rw [if_pos ⟨h0, by omega⟩]

/-- An indexed read at a non-negative index is the list lookup. -/
theorem Go.index_eq (s : List Nat) (i : Int) (h0 : 0 ≤ i) : Go.index s i = s[i.toNat]? := by
  unfold Go.index
  rw [if_pos h0]

/-! ## Colour conversions -/

/-- The method `RGBA()` of a `color.NRGBA` with byte-sized fields stays within 16 bits and
its alpha is `A * 0x101`. -/
theorem GoColor.nrgba_rgba_bound (c : GoColor.NRGBA)
    (h : c.R < 256 ∧ c.G < 256 ∧ c.B < 256 ∧ c.A < 256) :
    c.RGBA.r ≤ 0xffff ∧ c.RGBA.g ≤ 0xffff ∧ c.RGBA.b ≤ 0xffff ∧ c.RGBA.a = c.A * 257 := by
  obtain ⟨hR, hG, hB, hA⟩ := h
  have key : ∀ v, v < 256 → Go.u32 (v ||| Go.u32 (v <<< 8)) = v * 257 := by
    intro v hv
    have e : Go.u32 (v <<< 8) = v <<< 8 := by
      simp only [Go.u32, Nat.shiftLeft_eq]; norm_num; omega
    rw [e, Go.or_shift8 _ _ hv]; unfold Go.u32; omega
  have mul : ∀ v, v < 256 → Go.u32 (v * 257 * c.A) / 0xff ≤ 0xffff := by
    intro v hv
    have h1 : v * 257 * c.A ≤ 255 * 257 * 255 := by
      have : v * 257 ≤ 255 * 257 := by omega
      exact Nat.mul_le_mul this (by omega)
    unfold Go.u32
    omega
  unfold NRGBA.RGBA
  simp only [key _ hR, key _ hG, key _ hB, key _ hA]
  exact ⟨mul _ hR, mul _ hG, mul _ hB, trivial⟩

/-- The colour channels of `RGBA()` of a valid colour stay within 16 bits. -/
theorem GoColor.rgba_bound (c : Color) (hc : c.Valid) :
    c.RGBA.r ≤ 0xffff ∧ c.RGBA.g ≤ 0xffff ∧ c.RGBA.b ≤ 0xffff := by
  cases c with
  | nrgba n => exact ⟨(nrgba_rgba_bound n hc).1, (nrgba_rgba_bound n hc).2.1, (nrgba_rgba_bound n hc).2.2.1⟩
  | pixel565 p =>
    simp only [Color.RGBA, Pixel565.RGBA]
    omega
  | other v => exact ⟨hc.1, hc.2.1, hc.2.2.1⟩

/-- The 565 conversion of a valid colour is a `uint16`. -/
theorem GoColor.rgb565Model_lt (c : Color) (hc : c.Valid) : rgb565Model c < 65536 := by
  cases c with
  | nrgba n => simp only [rgb565Model, Go.u16]; omega
  | pixel565 p => exact hc
  | other v => simp only [rgb565Model, Go.u16]; omega

/-- Replicating a byte into 16 bits and taking the high byte gives the byte back. -/
theorem GoColor.widen8 (t : Nat) (h : t < 256) : t * 257 / 256 = t := by omega

/-- The 8-bit channels of a 565 pixel. -/
theorem GoColor.pixel565_channels8 (p : Nat) :
    (Color.pixel565 p).channels8 = ⟨p / 2048 % 32 * 8, p / 32 % 64 * 4, p % 32 * 8, 255⟩ := by
  simp only [Color.channels8, Color.RGBA, Pixel565.RGBA, NRGBA.mk.injEq]
  refine ⟨widen8 _ (by omega), widen8 _ (by omega), widen8 _ (by omega), by norm_num⟩

/-- The 8-bit channels of the 565 pixel packed from three 16-bit channels are those
channels truncated to 5, 6 and 5 bits, with full alpha. -/
theorem GoColor.pack565_channels (r g b : Nat) (hr : r ≤ 0xffff) (hg : g ≤ 0xffff) (hb : b ≤ 0xffff) :
    (Color.pixel565 (Go.u16 ((r / 2048 % 32) * 2048 + (g / 1024 % 64) * 32 + b / 2048 % 32))).channels8
      = ⟨r / 256 / 8 * 8, g / 256 / 4 * 4, b / 256 / 8 * 8, 255⟩ := by
  rw [pixel565_channels8]
  simp only [Go.u16, NRGBA.mk.injEq]
  refine ⟨?_, ?_, ?_, trivial⟩ <;> omega

/-- The 565 conversion keeps the top 5, 6 and 5 bits of the channels of any valid
colour and is fully opaque. -/
theorem GoColor.rgb565_channels (c : Color) (hc : c.Valid) :
    (Color.pixel565 (rgb565Model c)).channels8 =
      ⟨c.channels8.R / 8 * 8, c.channels8.G / 4 * 4, c.channels8.B / 8 * 8, 255⟩ := by
  have hb := rgba_bound c hc
  cases c with
  | nrgba n => exact pack565_channels _ _ _ hb.1 hb.2.1 hb.2.2
  | pixel565 p =>
    have e := pixel565_channels8 p
    simp only [rgb565Model, e, NRGBA.mk.injEq]
    refine ⟨?_, ?_, ?_, trivial⟩ <;> omega
  | other v => exact pack565_channels _ _ _ hb.1 hb.2.1 hb.2.2

/-! ## Pixel access of the two devices -/

/-- On a non-flipped 32-bit device whose bounds start at the origin, whose pitch is at
least 4 x width and whose buffer holds at least pitch x height bytes, `Set` of a
`color.NRGBA` with alpha > 0 at an in-bounds point succeeds and `At` then returns
exactly that colour. -/
theorem Fb32bpp.set_at_not_flipped (d : Fb32bpp.Device) (x y : Int) (n : GoColor.NRGBA)
    (hflip : d.flipped = false)
    (hmin : d.bounds.Min = ⟨0, 0⟩)
    (hpitch : 4 * d.bounds.Dx ≤ d.pitch)
    (hbuf : d.pitch * d.bounds.Dy ≤ d.pixels.length)
    (hcap : (d.pixels.length : Int) < 9223372036854775808)
    (hx : 0 ≤ x ∧ x < d.bounds.Dx) (hy : 0 ≤ y ∧ y < d.bounds.Dy)
    (ha : (Color.nrgba n).RGBA.a > 0) :
    ∃ d1, Fb32bpp.Set d x y (.nrgba n) = some d1 ∧ Fb32bpp.At d1 x y = some (.nrgba n) := by
  have hp : 0 ≤ d.pitch := by omega
  have h1 : 0 ≤ y * d.pitch := Int.mul_nonneg hy.1 hp
  have h2 : y * d.pitch ≤ (d.bounds.Dy - 1) * d.pitch :=
    Int.mul_le_mul_of_nonneg_right (by omega) hp
  have h3 : (d.bounds.Dy - 1) * d.pitch = d.pitch * d.bounds.Dy - d.pitch := by ring
  have h4 : y * d.pitch + 4 * x + 4 ≤ d.pixels.length := by omega
  have hMaxX : d.bounds.Max.X = d.bounds.Dx := by simp [GoImage.Rectangle.Dx, hmin]
  have hMaxY : d.bounds.Max.Y = d.bounds.Dy := by simp [GoImage.Rectangle.Dy, hmin]
  have hin1 : x ≥ 0 ∧ x < d.bounds.Max.X ∧ y ≥ 0 ∧ y < d.bounds.Max.Y := by
    rw [hMaxX, hMaxY]; omega
  have hout : ¬ (x < d.bounds.Min.X ∨ x ≥ d.bounds.Max.X ∨
      y < d.bounds.Min.Y ∨ y ≥ d.bounds.Max.Y) := by
    rw [hMaxX, hMaxY, hmin]; simp only; omega
  obtain ⟨i, hi⟩ : ∃ i : Int, i = y * d.pitch + 4 * x := ⟨_, rfl⟩
  have hoffS : Fb32bpp.setOffset d x y = i := by
    unfold Fb32bpp.setOffset
    rw [hflip, hi]
    simp only [Bool.false_eq_true, if_false]
    rw [Go.wrapInt_eq (y * d.pitch) (by omega) (by omega),
      Go.wrapInt_eq (4 * x) (by omega) (by omega), Go.wrapInt_eq _ (by omega) (by omega)]
  have hw1 : Go.wrapInt (i + 1) = i + 1 := Go.wrapInt_eq _ (by omega) (by omega)
  have hw2 : Go.wrapInt (i + 2) = i + 2 := Go.wrapInt_eq _ (by omega) (by omega)
  have hw3 : Go.wrapInt (i + 3) = i + 3 := Go.wrapInt_eq _ (by omega) (by omega)
  obtain ⟨k, hk⟩ : ∃ k : Nat, k = i.toNat := ⟨_, rfl⟩
  have hk0 : i.toNat = k := hk.symm
  have hk1 : (i + 1).toNat = k + 1 := by omega
  have hk2 : (i + 2).toNat = k + 2 := by omega
  have hk3 : (i + 3).toNat = k + 3 := by omega
  have hkl : k + 3 < d.pixels.length := by omega
  refine ⟨{ d with pixels :=
    (((d.pixels.set k n.B).set (k + 1) n.G).set (k + 2) n.R).set (k + 3) n.A }, ?_, ?_⟩
  · simp only [Fb32bpp.Set, hin1, and_self, if_true, ha, hoffS, nrgbaModel, hw1, hw2, hw3]
    rw [Go.store_eq _ _ _ (by omega) (by omega)]
    simp only [hk0]
    rw [Go.store_eq _ _ _ (by omega) (by simp; omega)]
    simp only [hk1]
    rw [Go.store_eq _ _ _ (by omega) (by simp; omega)]
    simp only [hk2]
    rw [Go.store_eq _ _ _ (by omega) (by simp; omega)]
    simp only [hk3]
  · have hoffA : Fb32bpp.atOffset { d with pixels :=
        (((d.pixels.set k n.B).set (k + 1) n.G).set (k + 2) n.R).set (k + 3) n.A } x y = i := by
      unfold Fb32bpp.atOffset
      simp only [hflip, Bool.false_eq_true, if_false]
      rw [hi, Go.wrapInt_eq (y * d.pitch) (by omega) (by omega),
        Go.wrapInt_eq (4 * x) (by omega) (by omega), Go.wrapInt_eq _ (by omega) (by omega)]
    simp only [Fb32bpp.At, hout, if_false, hoffA, hw1, hw2, hw3]
    rw [Go.index_eq _ _ (by omega), Go.index_eq _ _ (by omega), Go.index_eq _ _ (by omega),
      Go.index_eq _ _ (by omega)]
    simp only [hk0, hk1, hk2, hk3]
    rw [List.getElem?_set_ne (by omega), List.getElem?_set_self (by simp; omega)]
    rw [List.getElem?_set_ne (by omega), List.getElem?_set_ne (by omega),
      List.getElem?_set_self (by simp; omega)]
    rw [List.getElem?_set_ne (by omega), List.getElem?_set_ne (by omega),
      List.getElem?_set_ne (by omega), List.getElem?_set_self (by omega)]
    rw [List.getElem?_set_self (by simp; omega)]

/-- Under the device invariant the offset of an in-bounds pixel does not overflow and
its two bytes lie inside the buffer. -/
theorem Fb565le.offset_eq (d : Fb565le.Device) (x y : Int)
    (hpitch : 2 * d.bounds.Dx ≤ d.pitch)
    (hbuf : d.pitch * d.bounds.Dy ≤ d.pixels.length)
    (hcap : (d.pixels.length : Int) < 9223372036854775808)
    (hx : 0 ≤ x ∧ x < d.bounds.Dx) (hy : 0 ≤ y ∧ y < d.bounds.Dy) :
    Fb565le.offset d x y = y * d.pitch + 2 * x ∧ 0 ≤ y * d.pitch ∧
      y * d.pitch + 2 * x + 2 ≤ d.pixels.length := by
  have hp : 0 ≤ d.pitch := by omega
  have h1 : 0 ≤ y * d.pitch := Int.mul_nonneg hy.1 hp
  have h2 : y * d.pitch ≤ (d.bounds.Dy - 1) * d.pitch :=
    Int.mul_le_mul_of_nonneg_right (by omega) hp
  have h3 : (d.bounds.Dy - 1) * d.pitch = d.pitch * d.bounds.Dy - d.pitch := by ring
  have h4 : y * d.pitch + 2 * x + 2 ≤ d.pixels.length := by omega
  refine ⟨?_, h1, h4⟩
  unfold Fb565le.offset
  rw [Go.wrapInt_eq (y * d.pitch) (by omega) (by omega),
    Go.wrapInt_eq (2 * x) (by omega) (by omega),
    Go.wrapInt_eq _ (by omega) (by omega)]

/-! ## Claims about pixel access -/

/-- Claim C1, at a flipped device (code defect).  The portrait panel of 2 x 3
pixels is opened as a flipped device whose buffer holds pitch x height bytes.
Writing the opaque colour (10, 20, 30, 255) at (0, 0) stores it at byte offset
`4 * (bounds.Max.Y - 0) = 8`, while `At(0, 0)` reads byte offset 0 and returns
(0, 0, 0, 0): `Set` followed by `At` does not return the colour written. -/
theorem fb32bpp_flipped_set_at_mismatch :
    (Fb32bpp.Open Scenario.portraitNode).1 = .ok Scenario.portraitDevice ∧
    Scenario.portraitDevice.flipped = true ∧
    Scenario.portraitDevice.pitch * Scenario.portraitDevice.bounds.Dy
      ≤ Scenario.portraitDevice.pixels.length ∧
    Fb32bpp.Set Scenario.portraitDevice 0 0 (.nrgba ⟨10, 20, 30, 255⟩) =
      some { Scenario.portraitDevice with
        pixels := [0, 0, 0, 0, 0, 0, 0, 0, 30, 20, 10, 255, 0, 0, 0, 0, 0, 0, 0, 0, 0, 0, 0, 0] } ∧
    Fb32bpp.At { Scenario.portraitDevice with
        pixels := [0, 0, 0, 0, 0, 0, 0, 0, 30, 20, 10, 255, 0, 0, 0, 0, 0, 0, 0, 0, 0, 0, 0, 0] } 0 0 =
      some (.nrgba ⟨0, 0, 0, 0⟩) := by
  refine ⟨rfl, rfl, by decide, by decide, by decide⟩

/-- Claim C2: on a 565 device whose bounds start at the origin, whose pitch is at
least 2 x width and whose buffer holds at least pitch x height bytes, for every
in-bounds (x, y) and every colour `c` with alpha > 0, `Set(x, y, c)` succeeds,
stores the 16-bit RGB565 value of `c` little-endian at byte offset
`y*pitch + 2*x`, and `At(x, y)` then returns that pixel: the fully opaque colour
whose red, green and blue are the 8-bit channels of `c` truncated to 5, 6 and 5
bits. -/
theorem fb565le_set_at_round_trip (d : Fb565le.Device) (x y : Int) (c : Color)
    (hmin : d.bounds.Min = ⟨0, 0⟩)
    (hpitch : 2 * d.bounds.Dx ≤ d.pitch)
    (hbuf : d.pitch * d.bounds.Dy ≤ d.pixels.length)
    (hcap : (d.pixels.length : Int) < 9223372036854775808)
    (hx : 0 ≤ x ∧ x < d.bounds.Dx) (hy : 0 ≤ y ∧ y < d.bounds.Dy)
    (hc : c.Valid) (ha : c.RGBA.a > 0) :
    ∃ d1, Fb565le.Set d x y c = some d1 ∧
      d1.pixels[(y * d.pitch + 2 * x).toNat]? = some (rgb565Model c % 256) ∧
      d1.pixels[(y * d.pitch + 2 * x).toNat + 1]? = some (rgb565Model c / 256) ∧
      Fb565le.At d1 x y = some (.pixel565 (rgb565Model c)) ∧
      (Color.pixel565 (rgb565Model c)).channels8 =
        ⟨c.channels8.R / 8 * 8, c.channels8.G / 4 * 4, c.channels8.B / 8 * 8, 255⟩ := by
  obtain ⟨hoff, hnn, hin⟩ := Fb565le.offset_eq d x y hpitch hbuf hcap hx hy
  have hlt := rgb565Model_lt c hc
  have hu : Go.u16 (rgb565Model c) = rgb565Model c := by unfold Go.u16; omega
  obtain ⟨t, hput, hlen, hget, hb0, hb1, -⟩ :=
    Go.uint16LE_putUint16LE d.pixels (y * d.pitch + 2 * x) (rgb565Model c) hlt (by omega) hin hcap
  have hMaxX : d.bounds.Max.X = d.bounds.Dx := by
    simp [GoImage.Rectangle.Dx, hmin]
  have hMaxY : d.bounds.Max.Y = d.bounds.Dy := by
    simp [GoImage.Rectangle.Dy, hmin]
  have hin1 : x ≥ 0 ∧ x < d.bounds.Max.X ∧ y ≥ 0 ∧ y < d.bounds.Max.Y := by
    rw [hMaxX, hMaxY]; omega
  refine ⟨{ d with pixels := t }, ?_, hb0, hb1, ?_, rgb565_channels c hc⟩
  · simp only [Fb565le.Set, hin1, and_self, if_true, ha, hoff, hu, hput]
  · have hout : ¬ (x < d.bounds.Min.X ∨ x ≥ d.bounds.Max.X ∨
        y < d.bounds.Min.Y ∨ y ≥ d.bounds.Max.Y) := by
      rw [hMaxX, hMaxY, hmin]; simp only; omega
    have hoff1 : Fb565le.offset { d with pixels := t } x y = y * d.pitch + 2 * x := hoff
    simp only [Fb565le.At, hout, if_false, hoff1, hget]

/-- The scenario of claim C2: on the 640 x 512 device with pitch 1280 and a buffer
of 655360 bytes, writing opaque (255, 0, 0) at (0, 0) reads back the pixel
0xF800, which is (248, 0, 0) fully opaque. -/
theorem fb565le_set_at_round_trip_witness :
    ∃ d1, Fb565le.Set Scenario.device565 0 0 (.nrgba ⟨255, 0, 0, 255⟩) = some d1 ∧
      Fb565le.At d1 0 0 = some (.pixel565 63488) ∧
      (Color.pixel565 63488).channels8 = ⟨248, 0, 0, 255⟩ := by
  have hlen : Scenario.device565.pixels.length = 655360 := List.length_replicate _ _
  obtain ⟨d1, h1, -, -, h2, h3⟩ :=
    fb565le_set_at_round_trip Scenario.device565 0 0 (.nrgba ⟨255, 0, 0, 255⟩) rfl
      (by decide) (by rw [hlen]; decide) (by rw [hlen]; decide) (by decide) (by decide)
      (by decide) (by decide)
  exact ⟨d1, h1, h2, h3⟩

/-- Claim C3, at a one-pixel image (code defect).  On a non-flipped device of one
pixel and a fully opaque `*image.NRGBA` of the same bounds holding
(R, G, B, A) = (1, 2, 3, 255), the fast path of `Draw` leaves the bytes
1, 2, 3, 255 in the buffer, while the per-pixel path (`Set(0, 0, src.At(0, 0))`)
leaves 3, 2, 1, 255: the two buffers differ in the red and blue bytes. -/
theorem fb32bpp_fast_path_differs :
    Fb32bpp.Draw Scenario.onePixelDevice Scenario.onePixelDevice.bounds
        (.nrgba Scenario.onePixelImage) ⟨0, 0⟩ =
      some { Scenario.onePixelDevice with pixels := [1, 2, 3, 255] } ∧
    Fb32bpp.drawGeneric Scenario.onePixelDevice Scenario.onePixelDevice.bounds
        (.nrgba Scenario.onePixelImage) ⟨0, 0⟩ =
      some { Scenario.onePixelDevice with pixels := [3, 2, 1, 255] } ∧
    Scenario.onePixelImage.At 0 0 = some (.nrgba ⟨1, 2, 3, 255⟩) ∧
    Fb32bpp.Set Scenario.onePixelDevice 0 0 (.nrgba ⟨1, 2, 3, 255⟩) =
      some { Scenario.onePixelDevice with pixels := [3, 2, 1, 255] } := by
  refine ⟨by decide, by decide, by decide, by decide⟩

/-- Claim C4 as stated fails for the 565 variant: at (-1, 0), outside the bounds,
`At` returns the pixel `Pixel565(0)`, whose alpha is 0xffff, not 0.  It is the
very value `At` returns inside the bounds for a pixel written as opaque black. -/
theorem fb565le_at_outside_is_opaque :
    Fb565le.At Scenario.small565 (-1) 0 = some (.pixel565 0) ∧
    (Color.pixel565 0).RGBA.a = 0xffff ∧ (Color.pixel565 0).RGBA.a ≠ 0 ∧
    (Fb565le.Set Scenario.small565 0 0 (.nrgba ⟨0, 0, 0, 255⟩)).bind
      (fun d => Fb565le.At d 0 0) = some (.pixel565 0) := by
  refine ⟨by decide, by decide, by decide, by decide⟩

/-- Claim C4, amended: for every (x, y) outside the bounds, `At` returns without
failing a colour that does not depend on the buffer: for fb32bpp the fully
transparent `NRGBA{0, 0, 0, 0}` (alpha 0), for fb565le the zero pixel
`Pixel565(0)`, which is black with alpha 0xffff. -/
theorem at_outside_bounds (d32 : Fb32bpp.Device) (d16 : Fb565le.Device) (x y : Int)
    (h32 : GoImage.Point.In ⟨x, y⟩ d32.bounds = false)
    (h16 : GoImage.Point.In ⟨x, y⟩ d16.bounds = false) :
    (∀ px, Fb32bpp.At { d32 with pixels := px } x y = some (.nrgba ⟨0, 0, 0, 0⟩)) ∧
    (Color.nrgba ⟨0, 0, 0, 0⟩).RGBA.a = 0 ∧
    (∀ px, Fb565le.At { d16 with pixels := px } x y = some (.pixel565 0)) ∧
    (Color.pixel565 0).RGBA = ⟨0, 0, 0, 0xffff⟩ := by
  simp only [GoImage.Point.In, decide_eq_false_iff_not] at h32 h16
  refine ⟨?_, by decide, ?_, by decide⟩
  · intro px
    have h : x < d32.bounds.Min.X ∨ x ≥ d32.bounds.Max.X ∨
        y < d32.bounds.Min.Y ∨ y ≥ d32.bounds.Max.Y := by omega
    simp only [Fb32bpp.At, h, if_true]
  · intro px
    have h : x < d16.bounds.Min.X ∨ x ≥ d16.bounds.Max.X ∨
        y < d16.bounds.Min.Y ∨ y ≥ d16.bounds.Max.Y := by omega
    simp only [Fb565le.At, h, if_true]

/-- The amended claim C4 at (2, 0) on two devices of 2 x 2 pixels. -/
theorem at_outside_bounds_witness :
    (∀ px, Fb32bpp.At { Scenario.small32 with pixels := px } 2 0 = some (.nrgba ⟨0, 0, 0, 0⟩)) ∧
    (Color.nrgba ⟨0, 0, 0, 0⟩).RGBA.a = 0 ∧
    (∀ px, Fb565le.At { Scenario.small565 with pixels := px } 2 0 = some (.pixel565 0)) ∧
    (Color.pixel565 0).RGBA = ⟨0, 0, 0, 0xffff⟩ :=
  at_outside_bounds Scenario.small32 Scenario.small565 2 0 (by decide) (by decide)

/-- Claim C5: for both variants, on a device whose bounds start at the origin, if
(x, y) lies outside `[0, width) x [0, height)` or the colour has alpha 0, then
`Set(x, y, c)` returns with the device unchanged: every byte of the buffer, the
pitch and the bounds. -/
theorem set_noop_outside_write_condition (d32 : Fb32bpp.Device) (d16 : Fb565le.Device)
    (x y : Int) (c : Color)
    (hmin32 : d32.bounds.Min = ⟨0, 0⟩) (hmin16 : d16.bounds.Min = ⟨0, 0⟩)
    (h32 : GoImage.Point.In ⟨x, y⟩ d32.bounds = false ∨ c.RGBA.a = 0)
    (h16 : GoImage.Point.In ⟨x, y⟩ d16.bounds = false ∨ c.RGBA.a = 0) :
    Fb32bpp.Set d32 x y c = some d32 ∧ Fb565le.Set d16 x y c = some d16 := by
  simp only [GoImage.Point.In, decide_eq_false_iff_not, hmin32, hmin16] at h32 h16
  constructor
  · unfold Fb32bpp.Set
    split
    · next hin =>
      have ha : ¬ c.RGBA.a > 0 := by
        rcases h32 with h | h
        · exact absurd (by omega) h
        · omega
      simp only [ha, if_false]
    · rfl
  · unfold Fb565le.Set
    split
    · next hin =>
      have ha : ¬ c.RGBA.a > 0 := by
        rcases h16 with h | h
        · exact absurd (by omega) h
        · omega
      simp only [ha, if_false]
    · rfl

/-- Claim C5 at (0, 2), below two devices of 2 x 2 pixels, and at (0, 0) with a
fully transparent colour. -/
theorem set_noop_outside_write_condition_witness :
    (Fb32bpp.Set Scenario.small32 0 2 (.nrgba ⟨1, 2, 3, 255⟩) = some Scenario.small32 ∧
      Fb565le.Set Scenario.small565 0 2 (.nrgba ⟨1, 2, 3, 255⟩) = some Scenario.small565) ∧
    (Fb32bpp.Set Scenario.small32 0 0 (.nrgba ⟨1, 2, 3, 0⟩) = some Scenario.small32 ∧
      Fb565le.Set Scenario.small565 0 0 (.nrgba ⟨1, 2, 3, 0⟩) = some Scenario.small565) :=
  ⟨set_noop_outside_write_condition Scenario.small32 Scenario.small565 0 2
      (.nrgba ⟨1, 2, 3, 255⟩) rfl rfl (Or.inl (by decide)) (Or.inl (by decide)),
   set_noop_outside_write_condition Scenario.small32 Scenario.small565 0 0
      (.nrgba ⟨1, 2, 3, 0⟩) rfl rfl (Or.inr (by decide)) (Or.inr (by decide))⟩

/-! ## Claims about `Open` -/

/-- Claim C6, at failing device nodes (code defect).  When the variable-info
query fails, when the depth check fails (fb32bpp), when the mode-set is refused
(fb565le) or when the fixed-info query fails, `Open` returns the error with the
file opened and `file.Close()` never called. -/
theorem open_leaves_file_open_on_failure :
    Fb32bpp.Open Scenario.nodeVarFails = (.error (.sys 25), ⟨true, false, false⟩) ∧
    Fb32bpp.Open Scenario.node16 = (.error .unsupportedBitDepth, ⟨true, false, false⟩) ∧
    Fb32bpp.Open Scenario.nodeFixFails = (.error (.sys 25), ⟨true, false, false⟩) ∧
    Fb565le.Open Scenario.nodeVarFails = (.error (.sys 25), ⟨true, false, false⟩) ∧
    Fb565le.Open Scenario.nodePutFails = (.error (.sys 22), ⟨true, false, false⟩) ∧
    Fb565le.Open Scenario.nodeFixFails = (.error (.sys 25), ⟨true, false, false⟩) := by
  refine ⟨rfl, rfl, rfl, rfl, rfl, rfl⟩

/-- A channel layout equals an expected one exactly when the nine fields agree. -/
theorem FbH.layout_eq_iff (v : fb_var_screeninfo) (r g b : fb_bitfield) :
    layout v = (r, g, b) ↔
      (v.red.offset = r.offset ∧ v.red.length = r.length ∧ v.red.msb_right = r.msb_right ∧
       v.green.offset = g.offset ∧ v.green.length = g.length ∧ v.green.msb_right = g.msb_right ∧
       v.blue.offset = b.offset ∧ v.blue.length = b.length ∧ v.blue.msb_right = b.msb_right) := by
  obtain ⟨_, _, _, _, _, ⟨ro, rl, rm⟩, ⟨go, gl, gm⟩, ⟨bo, bl, bm⟩⟩ := v
  obtain ⟨ro1, rl1, rm1⟩ := r
  obtain ⟨go1, gl1, gm1⟩ := g
  obtain ⟨bo1, bl1, bm1⟩ := b
  simp only [layout, Prod.mk.injEq, fb_bitfield.mk.injEq]
  tauto

/-- Claim C7 as stated fails for fb32bpp: a device whose layout is not the
expected one (it is the 565 layout) and that reports 16 bits per pixel, with
every control request succeeding, is refused with the bit-depth error, not the
colour-model error. -/
theorem fb32bpp_layout_mismatch_reports_depth :
    layout (Scenario.info565 16) ≠ Fb32bpp.expectedLayout ∧
    (Fb32bpp.Open Scenario.node16).1 = .error .unsupportedBitDepth ∧
    (Fb32bpp.Open Scenario.node16).1 ≠ .error .unsupportedColorModel := by
  refine ⟨by decide, rfl, ?_⟩
  intro h
  cases h

/-- Claim C7, amended: when the file opens and the variable- and fixed-info
queries succeed, a channel layout that differs from the expected one makes
`Open` fail with the colour-model error, with the file closed and no memory map
attempted; for fb32bpp provided the reported depth is 32 (the depth check comes
first), for fb565le on the layout reported back after a successful mode-set. -/
theorem open_rejects_wrong_layout (node : DeviceNode) (v0 v : fb_var_screeninfo)
    (f : fb_fix_screeninfo)
    (hopen : node.openFile = .ok ()) (hvar : node.getVar = .ok v0)
    (hfix : node.getFix = .ok f) :
    (v0.bits_per_pixel = 32 → layout v0 ≠ Fb32bpp.expectedLayout →
      Fb32bpp.Open node = (.error .unsupportedColorModel, ⟨true, true, false⟩)) ∧
    (updateVarScreenInfo node (Fb565le.modeRequest v0) = .ok v →
      layout v ≠ Fb565le.expectedLayout →
      Fb565le.Open node = (.error .unsupportedColorModel, ⟨true, true, false⟩)) := by
  constructor
  · intro hbpp hl
    rw [Fb32bpp.expectedLayout, Ne, FbH.layout_eq_iff] at hl
    simp only [Fb32bpp.Open, hopen, hvar, hfix, hbpp, ne_eq, not_true_eq_false, if_false]
    rw [if_pos hl]
  · intro hupd hl
    rw [Fb565le.expectedLayout, Ne, FbH.layout_eq_iff] at hl
    simp only [Fb565le.Open, hopen, hvar, hfix, hupd]
    rw [if_pos hl]

/-- The amended claim C7 on a 32-bit device node that reports red and blue
exchanged: both variants refuse it with the colour-model error, the file closed
and nothing mapped. -/
theorem open_rejects_wrong_layout_witness :
    Fb32bpp.Open Scenario.nodeBGR = (.error .unsupportedColorModel, ⟨true, true, false⟩) ∧
    Fb565le.Open Scenario.nodeBGR = (.error .unsupportedColorModel, ⟨true, true, false⟩) :=
  ⟨(open_rejects_wrong_layout Scenario.nodeBGR Scenario.infoBGR Scenario.infoBGR ⟨24, 8⟩
      rfl rfl rfl).1 rfl (by decide),
   (open_rejects_wrong_layout Scenario.nodeBGR Scenario.infoBGR Scenario.infoBGR ⟨24, 8⟩
      rfl rfl rfl).2 rfl (by decide)⟩

/-- Claim C8 as stated fails for fb565le: the 16-bit scenario device reporting the
565 layout but 24 bits per pixel (also after the mode-set) is opened. -/
theorem fb565le_opens_24bpp :
    (Scenario.info565 24).bits_per_pixel = 24 ∧
    updateVarScreenInfo (Scenario.node565 24) (Fb565le.modeRequest (Scenario.info565 24))
      = .ok (Scenario.info565 24) ∧
    Fb565le.Open (Scenario.node565 24) = (.ok Scenario.device565, ⟨true, false, true⟩) := by
  refine ⟨rfl, rfl, rfl⟩

/-- Claim C8, amended: when the file opens and the variable-info query succeeds,
fb32bpp.Open fails with the bit-depth error whenever the reported
bits-per-pixel is not 32.  fb565le.Open has no depth check: it never returns
the bit-depth error, and when the mode-set, the queries and the memory map
succeed and the layout reported back is the 565 layout, it returns the device
whatever bits-per-pixel is reported back. -/
theorem open_depth_validation (node : DeviceNode) (v0 v : fb_var_screeninfo)
    (f : fb_fix_screeninfo) (px : List Nat)
    (hopen : node.openFile = .ok ()) (hvar : node.getVar = .ok v0) :
    (v0.bits_per_pixel ≠ 32 → (Fb32bpp.Open node).1 = .error .unsupportedBitDepth) ∧
    (Fb565le.Open node).1 ≠ .error .unsupportedBitDepth ∧
    (updateVarScreenInfo node (Fb565le.modeRequest v0) = .ok v →
      node.getFix = .ok f → layout v = Fb565le.expectedLayout →
      node.mmap f.smemlen = .ok px →
      Fb565le.Open node =
        (.ok ⟨px, f.line_length, GoImage.Rect 0 0 Fb565le.displayWidth Fb565le.displayHeight,
          .RGB565Model⟩, ⟨true, false, true⟩)) := by
  refine ⟨?_, ?_, ?_⟩
  · intro hbpp
    simp only [Fb32bpp.Open, hopen, hvar, ne_eq, hbpp, not_false_eq_true, if_true]
  · simp only [Fb565le.Open, hopen, hvar]
    cases updateVarScreenInfo node (Fb565le.modeRequest v0) with
    | error e => simp
    | ok v1 =>
      cases node.getFix with
      | error e => simp
      | ok f1 =>
        simp only
        split
        · simp
        · cases node.mmap f1.smemlen with
          | error e => simp
          | ok p => simp
  · intro hupd hfix hl hmap
    rw [Fb565le.expectedLayout, FbH.layout_eq_iff] at hl
    simp only [Fb565le.Open, hopen, hvar, hupd, hfix, hmap]
    rw [if_neg (not_not.2 hl)]

/-- The amended claim C8 on the 16-bit scenario device reporting 24 bits per
pixel: fb32bpp refuses it with the bit-depth error, fb565le opens it. -/
theorem open_depth_validation_witness :
    (Fb32bpp.Open (Scenario.node565 24)).1 = .error .unsupportedBitDepth ∧
    (Fb565le.Open (Scenario.node565 24)).1 ≠ .error .unsupportedBitDepth ∧
    Fb565le.Open (Scenario.node565 24) = (.ok Scenario.device565, ⟨true, false, true⟩) :=
  ⟨(open_depth_validation (Scenario.node565 24) _ (Scenario.info565 24) ⟨655360, 1280⟩
      (List.replicate 655360 0) rfl rfl).1 (by decide),
   (open_depth_validation (Scenario.node565 24) _ (Scenario.info565 24) ⟨655360, 1280⟩
      (List.replicate 655360 0) rfl rfl).2.1,
   (open_depth_validation (Scenario.node565 24) _ (Scenario.info565 24) ⟨655360, 1280⟩
      (List.replicate 655360 0) rfl rfl).2.2 rfl rfl rfl rfl⟩

/-! ## Window bookkeeping of the driver -/

namespace Linuxfb

/-- The focused flag after one assignment to a window. -/
theorem setFocused_focused (win : Nat → fbWindow) (p q : Nat) (b : Bool) :
    ((setFocused win p b) q).focused = if q = p then b else (win q).focused := by
  unfold setFocused
  by_cases h : q = p
  · subst h; simp
  · simp [Function.update_noteq h, h]

/-- The focused flag after the unfocusing loop of `RequestFocus`. -/
theorem unfocusAll_focused (ws : List Nat) (win : Nat → fbWindow) (q : Nat) :
    ((ws.foldl (fun win p => setFocused win p false) win) q).focused =
      if q ∈ ws then false else (win q).focused := by
  induction ws generalizing win with
  | nil => simp
  | cons a ws ih =>
    rw [List.foldl_cons, ih, setFocused_focused]
    by_cases h1 : q ∈ ws
    · simp [h1]
    · by_cases h2 : q = a
      · simp [h2]
      · simp [h1, h2]

/-- The focused flag of every window after `RequestFocus`. -/
theorem RequestFocus_focused (s : World) (w q : Nat) :
    ((RequestFocus s w).win q).focused =
      if q = w then true else if q ∈ s.driver.windows then false else (s.win q).focused := by
  simp only [RequestFocus, AllWindows, setFocused_focused, unfocusAll_focused]

/-- The method `RequestFocus` leaves the window list alone. -/
theorem RequestFocus_windows (s : World) (w : Nat) :
    (RequestFocus s w).driver.windows = s.driver.windows := rfl

/-- Replacing a window object by one with the same focused flag changes no focused flag. -/
theorem update_focused (win : Nat → fbWindow) (w q : Nat) (x : fbWindow)
    (hx : x.focused = (win w).focused) :
    ((Function.update win w x) q).focused = (win q).focused := by
  by_cases h : q = w
  · subst h; simp [hx]
  · simp [Function.update_noteq h]

/-- The focused flag of every window after `Show`. -/
theorem Show_focused (s : World) (w q : Nat) :
    ((Show s w).win q).focused =
      if q = w then true else if q ∈ s.driver.windows then false else (s.win q).focused := by
  rw [← RequestFocus_focused]
  unfold Show
  simp only
  split
  · exact update_focused _ _ _ _ rfl
  · refine (update_focused _ w q _ ?_).trans (update_focused _ w q _ ?_) <;> rfl

/-- The focused flag of every window after `Hide`. -/
theorem Hide_focused (s : World) (w q : Nat) :
    ((Hide s w).win q).focused = if q = w then false else (s.win q).focused := by
  rw [← setFocused_focused]
  unfold Hide
  simp only
  split
  · exact update_focused _ _ _ _ rfl
  · refine (update_focused _ w q _ ?_).trans (update_focused _ w q _ ?_) <;> rfl

/-- The search loop stops inside the list when the window is listed. -/
theorem searchIndex_lt (l : List Nat) (w : Nat) (h : w ∈ l) : searchIndex l w < l.length := by
  induction l with
  | nil => simp at h
  | cons a l ih =>
    unfold searchIndex
    by_cases e : a = w
    · simp [e]
    · have : w ∈ l := by
        rcases List.mem_cons.1 h with h | h
        · exact absurd h.symm e
        · exact h
      simp [e, ih this]

/-- The search loop runs to the end of the list when the window is not listed. -/
theorem searchIndex_not_mem (l : List Nat) (w : Nat) (h : w ∉ l) : searchIndex l w = l.length := by
  induction l with
  | nil => rfl
  | cons a l ih =>
    unfold searchIndex
    have e : a ≠ w := fun e => h (by simp [e])
    have : w ∉ l := fun m => h (List.mem_cons_of_mem _ m)
    simp [e, ih this]

/-- Cutting the list at the index found removes the first occurrence of the window. -/
theorem remove_eq_erase (l : List Nat) (w : Nat) (h : w ∈ l) :
    l.take (searchIndex l w) ++ l.drop (searchIndex l w + 1) = l.erase w := by
  induction l with
  | nil => simp at h
  | cons a l ih =>
    unfold searchIndex
    by_cases e : a = w
    · simp [e]
    · have : w ∈ l := by
        rcases List.mem_cons.1 h with h | h
        · exact absurd h.symm e
        · exact h
      simp [e, ih this, List.erase_cons_tail]

/-- The method `removeWindow` on a listed window removes it. -/
theorem removeWindow_listed (d : fbDriver) (w : Nat) (h : w ∈ d.windows) :
    removeWindow d w = some ⟨d.windows.erase w⟩ := by
  have := searchIndex_lt d.windows w h
  simp only [removeWindow, remove_eq_erase _ _ h]
  rw [if_pos (by omega)]

/-- The method `removeWindow` on a window that is not listed panics. -/
theorem removeWindow_unlisted (d : fbDriver) (w : Nat) (h : w ∉ d.windows) :
    removeWindow d w = none := by
  simp only [removeWindow, searchIndex_not_mem _ _ h]
  rw [if_neg (by omega)]

/-- An empty driver satisfies the focus invariant. -/
theorem FocusInv_init : FocusInv NewFBDriver := by
  refine ⟨?_, ?_, ?_, ?_⟩
  · intro p h; simp [NewFBDriver, newWindow] at h
  · intro p q h; simp [NewFBDriver, newWindow] at h
  · simp [NewFBDriver]
  · simp [NewFBDriver]

/-- Every call that completes on a listed window keeps the focus invariant. -/
theorem FocusInv_step (s t : World) (c : Call) (hinv : FocusInv s)
    (htarget : ∀ w, c.target = some w → w ∈ s.driver.windows)
    (hstep : step s c = some t) : FocusInv t := by
  obtain ⟨ha, hb, hn, hl⟩ := hinv
  cases c with
  | CreateWindow =>
    simp only [step, Option.some.injEq] at hstep
    subst hstep
    have hfresh : s.allocated ∉ s.driver.windows := fun m => by
      have := hl _ m; omega
    have hf : ∀ p, (((CreateWindow s).1).win p).focused = true →
        p ≠ s.allocated ∧ (s.win p).focused = true := by
      intro p h
      simp only [CreateWindow] at h
      by_cases e : p = s.allocated
      · subst e; simp [newWindow] at h
      · rw [Function.update_noteq e] at h; exact ⟨e, h⟩
    refine ⟨?_, ?_, ?_, ?_⟩
    · intro p h
      simp only [CreateWindow, List.mem_append, List.mem_singleton]
      exact Or.inl (ha p (hf p h).2)
    · intro p q hp hq
      exact hb p q (hf p hp).2 (hf q hq).2
    · simp only [CreateWindow]
      exact List.Nodup.append hn (List.nodup_singleton _) (by simpa using hfresh)
    · intro p hp
      simp only [CreateWindow, List.mem_append, List.mem_singleton] at hp ⊢
      rcases hp with hp | hp
      · have := hl p hp; omega
      · omega
  | RequestFocus w =>
    have hw := htarget w rfl
    simp only [step] at hstep
    split at hstep
    · simp only [Option.some.injEq] at hstep
      subst hstep
      have hf : ∀ p, ((RequestFocus s w).win p).focused = true → p = w := by
        intro p h
        rw [RequestFocus_focused] at h
        by_contra e
        simp only [e, if_false] at h
        by_cases m : p ∈ s.driver.windows
        · simp [m] at h
        · simp only [m, if_false] at h; exact m (ha p h)
      refine ⟨?_, ?_, hn, hl⟩
      · intro p h; rw [hf p h]; exact hw
      · intro p q hp hq; rw [hf p hp, hf q hq]
    · simp at hstep
  | Show w =>
    have hw := htarget w rfl
    simp only [step] at hstep
    split at hstep
    · simp only [Option.some.injEq] at hstep
      subst hstep
      have hf : ∀ p, ((Show s w).win p).focused = true → p = w := by
        intro p h
        rw [Show_focused] at h
        by_contra e
        simp only [e, if_false] at h
        by_cases m : p ∈ s.driver.windows
        · simp [m] at h
        · simp only [m, if_false] at h; exact m (ha p h)
      have hwin : (Show s w).driver.windows = s.driver.windows := by
        unfold Show; rfl
      have hal : (Show s w).allocated = s.allocated := by
        unfold Show; rfl
      refine ⟨?_, ?_, by rw [hwin]; exact hn, by rw [hwin, hal]; exact hl⟩
      · intro p h; rw [hf p h, hwin]; exact hw
      · intro p q hp hq; rw [hf p hp, hf q hq]
    · simp at hstep
  | Hide w =>
    simp only [step] at hstep
    split at hstep
    · simp only [Option.some.injEq] at hstep
      subst hstep
      have hf : ∀ p, ((Hide s w).win p).focused = true → (s.win p).focused = true := by
        intro p h
        rw [Hide_focused] at h
        by_cases e : p = w
        · simp [e] at h
        · simpa [e] using h
      have hwin : (Hide s w).driver.windows = s.driver.windows := by
        unfold Hide; rfl
      have hal : (Hide s w).allocated = s.allocated := by
        unfold Hide; rfl
      refine ⟨?_, ?_, by rw [hwin]; exact hn, by rw [hwin, hal]; exact hl⟩
      · intro p h; rw [hwin]; exact ha p (hf p h)
      · intro p q hp hq; exact hb p q (hf p hp) (hf q hq)
    · simp at hstep
  | Close w =>
    have hw := htarget w rfl
    simp only [step] at hstep
    split at hstep
    · simp only [Close, removeWindow_listed _ _ hw, Option.some.injEq] at hstep
      subst hstep
      have hf : ∀ p, ((setFocused s.win w false) p).focused = true →
          p ≠ w ∧ (s.win p).focused = true := by
        intro p h
        rw [setFocused_focused] at h
        by_cases e : p = w
        · simp [e] at h
        · exact ⟨e, by simpa [e] using h⟩
      refine ⟨?_, ?_, hn.erase w, ?_⟩
      · intro p h
        obtain ⟨e, h⟩ := hf p h
        exact (List.mem_erase_of_ne e).2 (ha p h)
      · intro p q hp hq; exact hb p q (hf p hp).2 (hf q hq).2
      · intro p hp; exact hl p (List.mem_of_mem_erase hp)
    · simp at hstep
  | SetOnClosed w k =>
    simp only [step] at hstep
    split at hstep
    · simp only [Option.some.injEq] at hstep
      subst hstep
      have hf : ∀ p, ((SetOnClosed s w k).win p).focused = (s.win p).focused := by
        intro p
        unfold SetOnClosed
        exact update_focused _ _ _ _ rfl
      refine ⟨?_, ?_, hn, hl⟩
      · intro p h; rw [hf] at h; exact ha p h
      · intro p q hp hq; rw [hf] at hp hq; exact hb p q hp hq
    · simp at hstep

/-- A run of calls on listed windows keeps the focus invariant. -/
theorem FocusInv_run (calls : List Call) (s t : World) (hinv : FocusInv s)
    (hlisted : onListed s calls = true) (hrun : run s calls = some t) : FocusInv t := by
  induction calls generalizing s with
  | nil =>
    simp only [run, Option.some.injEq] at hrun
    subst hrun; exact hinv
  | cons c cs ih =>
    simp only [run] at hrun
    simp only [onListed, Bool.and_eq_true] at hlisted
    obtain ⟨h1, h2⟩ := hlisted
    cases hs : step s c with
    | none => simp [hs] at hrun
    | some s1 =>
      simp only [hs] at hrun h2
      refine ih s1 (FocusInv_step s s1 c hinv ?_ hs) h2 hrun
      intro w hw
      simpa [hw] using h1

/-- Under the focus invariant at most one allocated window is focused. -/
theorem focusedWindows_length (s : World) (hinv : FocusInv s) :
    (focusedWindows s).length ≤ 1 := by
  have hnd : (focusedWindows s).Nodup := (List.nodup_range _).filter _
  have hall : ∀ p ∈ focusedWindows s, ∀ q ∈ focusedWindows s, p = q := by
    intro p hp q hq
    simp only [focusedWindows, List.mem_filter] at hp hq
    exact hinv.2.1 p q hp.2 hq.2
  match h : focusedWindows s with
  | [] => simp
  | [a] => simp
  | a :: b :: l =>
    rw [h] at hnd hall
    have := hall a (by simp) b (by simp)
    subst this
    simp at hnd

/-- An empty driver satisfies the invariant of the listed windows. -/
theorem ListedInv_init : ListedInv NewFBDriver := by
  refine ⟨?_, ?_, ?_⟩
  · intro p q h; simp [NewFBDriver, newWindow] at h
  · simp [NewFBDriver]
  · simp [NewFBDriver]

/-- Every call that completes, on any allocated window, keeps the invariant of the
listed windows. -/
theorem ListedInv_step (s t : World) (c : Call) (hinv : ListedInv s)
    (hstep : step s c = some t) : ListedInv t := by
  obtain ⟨hb, hn, hl⟩ := hinv
  cases c with
  | CreateWindow =>
    simp only [step, Option.some.injEq] at hstep
    subst hstep
    have hfresh : s.allocated ∉ s.driver.windows := fun m => by
      have := hl _ m; omega
    have hf : ∀ p, (((CreateWindow s).1).win p).focused = true →
        p ≠ s.allocated ∧ (s.win p).focused = true := by
      intro p h
      simp only [CreateWindow] at h
      by_cases e : p = s.allocated
      · subst e; simp [newWindow] at h
      · rw [Function.update_noteq e] at h; exact ⟨e, h⟩
    refine ⟨?_, ?_, ?_⟩
    · intro p q hp hq mp mq
      simp only [CreateWindow, List.mem_append, List.mem_singleton] at mp mq
      obtain ⟨ep, hp⟩ := hf p hp
      obtain ⟨eq, hq⟩ := hf q hq
      exact hb p q hp hq (mp.resolve_right ep) (mq.resolve_right eq)
    · simp only [CreateWindow]
      exact List.Nodup.append hn (List.nodup_singleton _) (by simpa using hfresh)
    · intro p hp
      simp only [CreateWindow, List.mem_append, List.mem_singleton] at hp ⊢
      rcases hp with hp | hp
      · have := hl p hp; omega
      · omega
  | RequestFocus w =>
    simp only [step] at hstep
    split at hstep
    · simp only [Option.some.injEq] at hstep
      subst hstep
      have hf : ∀ p, ((RequestFocus s w).win p).focused = true →
          p ∈ s.driver.windows → p = w := by
        intro p h m
        rw [RequestFocus_focused] at h
        by_contra e
        simp [e, m] at h
      refine ⟨?_, hn, hl⟩
      intro p q hp hq mp mq
      rw [hf p hp mp, hf q hq mq]
    · simp at hstep
  | Show w =>
    simp only [step] at hstep
    split at hstep
    · simp only [Option.some.injEq] at hstep
      subst hstep
      have hf : ∀ p, ((Show s w).win p).focused = true →
          p ∈ s.driver.windows → p = w := by
        intro p h m
        rw [Show_focused] at h
        by_contra e
        simp [e, m] at h
      have hwin : (Show s w).driver.windows = s.driver.windows := by
        unfold Show; rfl
      have hal : (Show s w).allocated = s.allocated := by
        unfold Show; rfl
      refine ⟨?_, by rw [hwin]; exact hn, by rw [hwin, hal]; exact hl⟩
      intro p q hp hq mp mq
      rw [hwin] at mp mq
      rw [hf p hp mp, hf q hq mq]
    · simp at hstep
  | Hide w =>
    simp only [step] at hstep
    split at hstep
    · simp only [Option.some.injEq] at hstep
      subst hstep
      have hf : ∀ p, ((Hide s w).win p).focused = true → (s.win p).focused = true := by
        intro p h
        rw [Hide_focused] at h
        by_cases e : p = w
        · simp [e] at h
        · simpa [e] using h
      have hwin : (Hide s w).driver.windows = s.driver.windows := by
        unfold Hide; rfl
      have hal : (Hide s w).allocated = s.allocated := by
        unfold Hide; rfl
      refine ⟨?_, by rw [hwin]; exact hn, by rw [hwin, hal]; exact hl⟩
      intro p q hp hq mp mq
      rw [hwin] at mp mq
      exact hb p q (hf p hp) (hf q hq) mp mq
    · simp at hstep
  | Close w =>
    simp only [step] at hstep
    split at hstep
    · by_cases hw : w ∈ s.driver.windows
      · simp only [Close, removeWindow_listed _ _ hw, Option.some.injEq] at hstep
        subst hstep
        have hf : ∀ p, ((setFocused s.win w false) p).focused = true →
            (s.win p).focused = true := by
          intro p h
          rw [setFocused_focused] at h
          by_cases e : p = w
          · simp [e] at h
          · simpa [e] using h
        refine ⟨?_, hn.erase w, ?_⟩
        · intro p q hp hq mp mq
          exact hb p q (hf p hp) (hf q hq) (List.mem_of_mem_erase mp) (List.mem_of_mem_erase mq)
        · intro p hp; exact hl p (List.mem_of_mem_erase hp)
      · simp [Close, removeWindow_unlisted _ _ hw] at hstep
    · simp at hstep
  | SetOnClosed w k =>
    simp only [step] at hstep
    split at hstep
    · simp only [Option.some.injEq] at hstep
      subst hstep
      have hf : ∀ p, ((SetOnClosed s w k).win p).focused = (s.win p).focused := by
        intro p
        unfold SetOnClosed
        exact update_focused _ _ _ _ rfl
      refine ⟨?_, hn, hl⟩
      intro p q hp hq mp mq
      rw [hf] at hp hq
      exact hb p q hp hq mp mq
    · simp at hstep

/-- Whatever windows the calls are made on, closed ones included, at most one
window of the driver's list is focused in every state the driver reaches. -/
theorem listed_focus_exclusive (calls : List Call) (s t : World) (hinv : ListedInv s)
    (hrun : run s calls = some t) : ListedInv t := by
  induction calls generalizing s with
  | nil =>
    simp only [run, Option.some.injEq] at hrun
    subst hrun; exact hinv
  | cons c cs ih =>
    simp only [run] at hrun
    cases hs : step s c with
    | none => simp [hs] at hrun
    | some s1 =>
      simp only [hs] at hrun
      exact ih s1 (ListedInv_step s s1 c hinv hs) hrun

end Linuxfb

/-- Claim C9 as stated fails when a call is made on a window that was closed:
after two windows are created and the first is closed, `RequestFocus` on the
closed window and then on the open one leaves both focused, because
`RequestFocus` unfocuses only the windows of the driver's list. -/
theorem focus_not_exclusive_after_close :
    (run NewFBDriver
        [.CreateWindow, .CreateWindow, .Close 0, .RequestFocus 0, .RequestFocus 1]).map
      (fun s => (s.driver.windows, focusedWindows s)) = some ([1], [0, 1]) := by
  rfl

/-- Claim C9, amended: in every driver state reached from an empty driver by a
sequence of CreateWindow, RequestFocus, Show, Hide, Close (and SetOnClosed)
calls, each made on a window that is in the driver's window list at the time
of the call, at most one of the windows created by the driver, closed ones
included, has its focused flag set. -/
theorem exclusive_focus_on_listed_windows (calls : List Call) (s : World)
    (hlisted : onListed NewFBDriver calls = true) (hrun : run NewFBDriver calls = some s) :
    (focusedWindows s).length ≤ 1 :=
  Linuxfb.focusedWindows_length s
    (Linuxfb.FocusInv_run calls NewFBDriver s Linuxfb.FocusInv_init hlisted hrun)

/-- The amended claim C9 on two windows shown in turn, the second then closed: no
window is left focused. -/
theorem exclusive_focus_on_listed_windows_witness :
    run NewFBDriver Scenario.focusCalls = some Scenario.focusWorld ∧
    onListed NewFBDriver Scenario.focusCalls = true ∧
    (focusedWindows Scenario.focusWorld).length ≤ 1 :=
  ⟨rfl, rfl, exclusive_focus_on_listed_windows Scenario.focusCalls Scenario.focusWorld rfl rfl⟩

/-- Closing a window of the list: `Close` completes, invokes the registered
callback once, and leaves the list with the window removed and the other
windows in their order. -/
theorem Linuxfb.Close_listed (s : World) (w : Nat) (hw : w ∈ s.driver.windows)
    (hn : s.driver.windows.Nodup) :
    ∃ t, Close s w = some t ∧
      t.driver.windows = s.driver.windows.filter (fun p => p != w) ∧
      t.fired = s.fired ++ (s.win w).onClosed.toList ∧
      (t.win w).focused = false := by
  have h : Close s w = some
      { s with
        driver := ⟨s.driver.windows.erase w⟩,
        win := setFocused s.win w false,
        fired := s.fired ++ (s.win w).onClosed.toList } := by
    simp only [Close, Linuxfb.removeWindow_listed _ _ hw]
    cases (s.win w).onClosed <;> simp
  refine ⟨_, h, ?_, rfl, ?_⟩
  · exact hn.erase_eq_filter w
  · simp [Linuxfb.setFocused_focused]

/-- Claim C10, at a window closed twice (code defect).  After two windows are
created and window 0 is closed, the list holds window 1 only; window 0 was
created by the driver, and a second `Close` on it does not complete: the search
of `removeWindow` ends with `i = len(d.windows)` and `d.windows[i+1:]` is out of
range. -/
theorem close_twice_faults :
    (run NewFBDriver [.CreateWindow, .CreateWindow, .Close 0]).map
      (fun s => (s.driver.windows, decide (0 < s.allocated), (Close s 0).isNone))
      = some ([1], true, true) ∧
    (run NewFBDriver [.CreateWindow, .CreateWindow, .Close 0, .Close 0]).isNone = true := by
  refine ⟨rfl, rfl⟩

/-! ## The display-target canvas -/

namespace Linuxfb

/-- The method `Show` leaves the window list alone. -/
theorem Show_windows (s : World) (w : Nat) : (Show s w).driver.windows = s.driver.windows := by
  unfold Show; rfl

/-- The method `Show` sets the visible flag of its window. -/
theorem Show_visible (s : World) (w : Nat) : ((Show s w).win w).visible = true := by
  unfold Show
  simp only
  split <;> simp

/-- On a non-empty list `CanvasForObject` returns the canvas of the last listed window. -/
theorem CanvasForObject_eq (s : World) (h : s.driver.windows ≠ []) :
    CanvasForObject s = some (s.driver.windows.getLast h) := by
  have hl : 0 < s.driver.windows.length := List.length_pos.2 h
  unfold CanvasForObject
  simp only
  rw [if_pos (by omega)]
  have e : ((s.driver.windows.length : Int) - 1).toNat = s.driver.windows.length - 1 := by omega
  rw [e, List.getLast_eq_getElem, List.getElem?_eq_getElem]

/-- An empty driver has its windows in creation order. -/
theorem CreationOrder_init : CreationOrder NewFBDriver := by
  constructor
  · simp [NewFBDriver]
  · simp [NewFBDriver]

/-- Every call that completes, on any window, keeps the list in creation order. -/
theorem CreationOrder_step (s t : World) (c : Call) (hinv : CreationOrder s)
    (hstep : step s c = some t) : CreationOrder t := by
  obtain ⟨hp, hl⟩ := hinv
  cases c with
  | CreateWindow =>
    simp only [step, Option.some.injEq] at hstep
    subst hstep
    constructor
    · simp only [CreateWindow]
      rw [List.pairwise_append]
      refine ⟨hp, List.pairwise_singleton _ _, ?_⟩
      intro a ha b hb
      rw [List.mem_singleton] at hb
      subst hb
      exact hl a ha
    · intro p hp1
      simp only [CreateWindow, List.mem_append, List.mem_singleton] at hp1 ⊢
      rcases hp1 with h | h
      · have := hl p h; omega
      · omega
  | RequestFocus w =>
    simp only [step] at hstep
    split at hstep
    · simp only [Option.some.injEq] at hstep
      subst hstep
      exact ⟨hp, hl⟩
    · simp at hstep
  | Show w =>
    simp only [step] at hstep
    split at hstep
    · simp only [Option.some.injEq] at hstep
      subst hstep
      have hwin : (Show s w).driver.windows = s.driver.windows := Show_windows s w
      have hal : (Show s w).allocated = s.allocated := by unfold Show; rfl
      exact ⟨by rw [hwin]; exact hp, by rw [hwin, hal]; exact hl⟩
    · simp at hstep
  | Hide w =>
    simp only [step] at hstep
    split at hstep
    · simp only [Option.some.injEq] at hstep
      subst hstep
      have hwin : (Hide s w).driver.windows = s.driver.windows := by unfold Hide; rfl
      have hal : (Hide s w).allocated = s.allocated := by unfold Hide; rfl
      exact ⟨by rw [hwin]; exact hp, by rw [hwin, hal]; exact hl⟩
    · simp at hstep
  | Close w =>
    simp only [step] at hstep
    split at hstep
    · by_cases hw : w ∈ s.driver.windows
      · simp only [Close, removeWindow_listed _ _ hw, Option.some.injEq] at hstep
        subst hstep
        exact ⟨hp.sublist (List.erase_sublist w _), fun p h => hl p (List.mem_of_mem_erase h)⟩
      · simp [Close, removeWindow_unlisted _ _ hw] at hstep
    · simp at hstep
  | SetOnClosed w k =>
    simp only [step] at hstep
    split at hstep
    · simp only [Option.some.injEq] at hstep
      subst hstep
      exact ⟨hp, hl⟩
    · simp at hstep

/-- Every state the driver reaches has its windows in creation order. -/
theorem CreationOrder_run (calls : List Call) (s t : World) (hinv : CreationOrder s)
    (hrun : run s calls = some t) : CreationOrder t := by
  induction calls generalizing s with
  | nil =>
    simp only [run, Option.some.injEq] at hrun
    subst hrun; exact hinv
  | cons c cs ih =>
    simp only [run] at hrun
    cases hs : step s c with
    | none => simp [hs] at hrun
    | some s1 =>
      simp only [hs] at hrun
      exact ih s1 (CreationOrder_step s s1 c hinv hs) hrun

/-- The last element of a strictly increasing list is its greatest. -/
theorem le_getLast (l : List Nat) (h : l ≠ []) (hp : l.Pairwise (fun p q => p < q)) :
    ∀ p ∈ l, p ≤ l.getLast h := by
  intro p hmem
  have e := List.dropLast_append_getLast h
  rw [← e, List.pairwise_append] at hp
  rw [← e, List.mem_append, List.mem_singleton] at hmem
  rcases hmem with hm | hm
  · exact Nat.le_of_lt (hp.2.2 p hm _ (List.mem_singleton.2 rfl))
  · omega

end Linuxfb

/-- Claim C11 as stated fails: after two windows are created and the first one
requests focus, the window that most recently received focus is window 0 (it is
the only focused one), yet `CanvasForObject` returns the canvas of window 1,
the last of the list. -/
theorem canvas_for_object_ignores_focus :
    run NewFBDriver Scenario.canvasCalls = some Scenario.canvasWorld ∧
    mostRecentlyFocused Scenario.canvasCalls = some 0 ∧
    focusedWindows Scenario.canvasWorld = [0] ∧
    Scenario.canvasWorld.driver.windows = [0, 1] ∧
    CanvasForObject Scenario.canvasWorld = some 1 := by
  refine ⟨rfl, rfl, rfl, rfl, rfl⟩

/-- Claim C11, amended: in every state reached from an empty driver by any
sequence of calls, with at least one window in the list, `CanvasForObject`
returns the canvas of the last window of the list, which is the most recently
created window still listed: it is listed and was created by the driver, the
list stands in creation order (`CreateWindow` hands out the pointers in turn)
and no listed window was created after it.  `RequestFocus`, `Show` and `Hide`
on any window do not change what it returns, and right after `CreateWindow` it
is the new window. -/
theorem canvas_for_object_is_last_listed (calls : List Call) (s : World)
    (hrun : run NewFBDriver calls = some s) (h : s.driver.windows ≠ []) :
    CanvasForObject s = some (s.driver.windows.getLast h) ∧
    s.driver.windows.getLast h ∈ s.driver.windows ∧
    s.driver.windows.getLast h < s.allocated ∧
    (∀ p ∈ s.driver.windows, p ≤ s.driver.windows.getLast h) ∧
    s.driver.windows.Pairwise (fun p q => p < q) ∧
    (∀ w, CanvasForObject (RequestFocus s w) = CanvasForObject s ∧
      CanvasForObject (Show s w) = CanvasForObject s ∧
      CanvasForObject (Hide s w) = CanvasForObject s) ∧
    (CreateWindow s).2 = s.allocated ∧
    (CreateWindow s).1.allocated = s.allocated + 1 ∧
    CanvasForObject (CreateWindow s).1 = some (CreateWindow s).2 := by
  obtain ⟨hp, hl⟩ := Linuxfb.CreationOrder_run calls NewFBDriver s Linuxfb.CreationOrder_init hrun
  refine ⟨Linuxfb.CanvasForObject_eq s h, List.getLast_mem h, hl _ (List.getLast_mem h),
    Linuxfb.le_getLast _ h hp, hp, ?_, rfl, rfl, ?_⟩
  · intro w
    refine ⟨rfl, ?_, ?_⟩
    · unfold CanvasForObject
      rw [Linuxfb.Show_windows]
    · unfold CanvasForObject Hide
      rfl
  · have hne : (CreateWindow s).1.driver.windows ≠ [] := by
      simp [CreateWindow]
    rw [Linuxfb.CanvasForObject_eq _ hne]
    simp [CreateWindow]

/-- The amended claim C11 on three windows of which the second was closed and the
first was focused last: the canvas is that of the third. -/
theorem canvas_for_object_is_last_listed_witness :
    run NewFBDriver Scenario.orderCalls = some Scenario.orderWorld ∧
    Scenario.orderWorld.driver.windows = [0, 2] ∧
    CanvasForObject Scenario.orderWorld = some 2 ∧
    (∀ p ∈ Scenario.orderWorld.driver.windows, p ≤ 2) ∧
    CanvasForObject (Show Scenario.orderWorld 0) = CanvasForObject Scenario.orderWorld :=
  ⟨rfl, rfl,
   (canvas_for_object_is_last_listed Scenario.orderCalls Scenario.orderWorld rfl
      (by decide)).1,
   (canvas_for_object_is_last_listed Scenario.orderCalls Scenario.orderWorld rfl
      (by decide)).2.2.2.1,
   ((canvas_for_object_is_last_listed Scenario.orderCalls Scenario.orderWorld rfl
      (by decide)).2.2.2.2.2.1 0).2.1⟩

/-! ## The control loop and `Quit` -/

/-- Claim C12 as stated fails: on a driver whose control loop is running, `Quit`
only prints a line; the channel `d.done` is still nil afterwards, a receive
from it can never proceed, so the termination case of the `select` cannot be
taken: the ticker keeps running and `runFB` has not returned. -/
theorem quit_delivers_no_signal :
    Quit runFBStarted = { runFBStarted with printed := 1 } ∧
    (Quit runFBStarted).done = .nil ∧
    (Quit runFBStarted).done.recvReady = false ∧
    runFBSelect (Quit runFBStarted) .done = none ∧
    runControl runFBStarted [.Quit, .select .done] = none ∧
    (Quit runFBStarted).returned = false ∧ (Quit runFBStarted).ticking = true := by
  refine ⟨rfl, rfl, rfl, rfl, rfl, rfl, rfl⟩

namespace Linuxfb

/-- Nothing that happens around the control loop makes the channels or lets it return. -/
theorem runControl_nil (events : List LoopEvent) (s t : Control)
    (h0 : s.done = .nil ∧ s.returned = false ∧ s.ticking = true ∧ s.drawSignalled = false)
    (h : runControl s events = some t) :
    t.done = .nil ∧ t.returned = false ∧ t.ticking = true ∧ t.drawSignalled = false := by
  induction events generalizing s with
  | nil =>
    simp only [runControl, Option.some.injEq] at h
    subst h; exact h0
  | cons e es ih =>
    cases e with
    | Quit =>
      simp only [runControl] at h
      exact ih (Quit s) h0 h
    | select b =>
      simp only [runControl] at h
      cases hs : runFBSelect s b with
      | none => simp [hs] at h
      | some s1 =>
        simp only [hs] at h
        refine ih s1 ?_ h
        obtain ⟨d, r, k, g⟩ := h0
        unfold runFBSelect at hs
        simp only [r, Bool.false_eq_true, if_false] at hs
        cases b with
        | done => simp [d, Chan.recvReady] at hs
        | funcQueue f =>
          simp only [Option.some.injEq] at hs
          subst hs; exact ⟨d, rfl, k, g⟩
        | eventTick =>
          simp only [k, if_true, Option.some.injEq] at hs
          subst hs; exact ⟨d, r, k, g⟩

end Linuxfb

/-- Claim C12, amended: `Quit` delivers no termination signal.  In every state
reached from a running control loop of a driver made by `NewFBDriver`, by any
sequence of `Quit` calls, ticks and marshaled functions, the channel `d.done`
is nil, the termination case of the `select` cannot be taken (before or after
a further `Quit`), the ticker runs, the draw loop has not been signalled and
`runFB` has not returned. -/
theorem control_loop_never_terminates (events : List LoopEvent) (s : Control)
    (h : runControl runFBStarted events = some s) :
    s.done = .nil ∧ runFBSelect s .done = none ∧
    s.returned = false ∧ s.ticking = true ∧ s.drawSignalled = false ∧
    (Quit s).done = .nil ∧ runFBSelect (Quit s) .done = none := by
  obtain ⟨d, r, k, g⟩ := Linuxfb.runControl_nil events runFBStarted s ⟨rfl, rfl, rfl, rfl⟩ h
  have hsel : ∀ u : Control, u.done = .nil → runFBSelect u .done = none := by
    intro u hu
    unfold runFBSelect
    split
    · rfl
    · simp [hu, Chan.recvReady]
  exact ⟨d, hsel s d, r, k, g, d, hsel (Quit s) d⟩

/-- The amended claim C12 after two calls of `Quit`, a tick and one marshaled
function. -/
theorem control_loop_never_terminates_witness :
    runControl runFBStarted Scenario.loopEvents = some Scenario.loopControl ∧
    Scenario.loopControl.printed = 2 ∧
    runFBSelect Scenario.loopControl .done = none ∧
    Scenario.loopControl.returned = false ∧ Scenario.loopControl.ticking = true :=
  ⟨rfl, rfl,
   (control_loop_never_terminates Scenario.loopEvents Scenario.loopControl rfl).2.1,
   (control_loop_never_terminates Scenario.loopEvents Scenario.loopControl rfl).2.2.1,
   (control_loop_never_terminates Scenario.loopEvents Scenario.loopControl rfl).2.2.2.1⟩

/-! ## Pixel access under the device invariant -/

/-- Claim C13, at a flipped device (code defect).  The portrait panel of 2 x 3
pixels opens as a flipped device that satisfies the invariant: its pitch 8 is
4 x the width of the mode and its 24 bytes are pitch x height.  `Set(2, 0, c)`
with an opaque colour is in bounds and computes the offset
`2*8 + 4*(bounds.Max.Y - 0) = 24`, the length of the buffer: the first store is
out of range and `Set` faults. -/
theorem fb32bpp_flipped_set_faults :
    (Fb32bpp.Open Scenario.portraitNode).1 = .ok Scenario.portraitDevice ∧
    Fb32bpp.Invariant Scenario.portraitDevice 2 3 ∧
    (Color.nrgba ⟨10, 20, 30, 255⟩).RGBA.a > 0 ∧
    Fb32bpp.setOffset Scenario.portraitDevice 2 0 = 24 ∧
    Scenario.portraitDevice.pixels.length = 24 ∧
    Fb32bpp.Set Scenario.portraitDevice 2 0 (.nrgba ⟨10, 20, 30, 255⟩) = none := by
  refine ⟨rfl, ⟨rfl, rfl, by decide, by decide, by decide⟩, by decide, by decide, rfl, by decide⟩

namespace Fb32bpp

/-- The rectangle `image.Rect(0, 0, a, b)` of two unsigned values. -/
theorem Rect_origin (a b : Nat) : GoImage.Rect 0 0 a b = ⟨⟨0, 0⟩, ⟨a, b⟩⟩ := by
  have ha : ¬ ((0 : Int) > a) := by omega
  have hb : ¬ ((0 : Int) > b) := by omega
  simp [GoImage.Rect, ha, hb]

/-- An indexed read inside the slice returns a byte. -/
theorem index_some (s : List Nat) (i : Int) (h0 : 0 ≤ i) (h1 : i < s.length) :
    ∃ v, Go.index s i = some v := by
  rw [Go.index_eq s i h0]
  have hlt : i.toNat < s.length := by omega
  exact ⟨s[i.toNat], List.getElem?_eq_getElem hlt⟩

/-- The byte offset of a pixel at row `r`, column `c` of the physical mode lies
inside the buffer together with the three bytes after it, and is computed
without overflow. -/
theorem offset_in_buffer (d : Device) (w h : Nat) (hinv : Invariant d w h) (r c : Int)
    (hr : 0 ≤ r ∧ r < h) (hc : 0 ≤ c ∧ c < w) :
    Go.wrapInt (Go.wrapInt (r * d.pitch) + Go.wrapInt (4 * c)) = r * d.pitch + 4 * c ∧
    0 ≤ r * d.pitch + 4 * c ∧ r * d.pitch + 4 * c + 4 ≤ d.pixels.length := by
  obtain ⟨-, -, hp, hb, hl⟩ := hinv
  have hp0 : 0 ≤ d.pitch := by omega
  have h1 : 0 ≤ r * d.pitch := Int.mul_nonneg hr.1 hp0
  have h2 : r * d.pitch ≤ ((h : Int) - 1) * d.pitch :=
    Int.mul_le_mul_of_nonneg_right (by omega) hp0
  have h3 : ((h : Int) - 1) * d.pitch = d.pitch * h - d.pitch := by ring
  have h4 : r * d.pitch + 4 * c + 4 ≤ d.pixels.length := by omega
  refine ⟨?_, by omega, h4⟩
  rw [Go.wrapInt_eq (r * d.pitch) (by omega) (by omega),
    Go.wrapInt_eq (4 * c) (by omega) (by omega), Go.wrapInt_eq _ (by omega) (by omega)]

/-- Under the device invariant `At` never faults, on a flipped device or not. -/
theorem At_total (d : Device) (w h : Nat) (hinv : Invariant d w h) (x y : Int) :
    ∃ c, At d x y = some c := by
  unfold At
  split
  · exact ⟨_, rfl⟩
  · next hin =>
    have hcap := hinv.2.2.2.2
    obtain ⟨i, hi, h0, h4⟩ : ∃ i : Int, atOffset d x y = i ∧ 0 ≤ i ∧
        i + 4 ≤ d.pixels.length := by
      have hf := hinv.1
      have hb := hinv.2.1
      by_cases hw : h > w
      · simp only [hw, decide_True, if_true, Rect_origin] at hf hb
        rw [hb] at hin
        simp only at hin
        obtain ⟨e, p0, p4⟩ := offset_in_buffer d w h hinv x y (by omega) (by omega)
        exact ⟨_, by simp only [atOffset, hf, if_true]; exact e, p0, p4⟩
      · simp only [hw, decide_False, if_false, Rect_origin] at hf hb
        rw [hb] at hin
        simp only at hin
        obtain ⟨e, p0, p4⟩ := offset_in_buffer d w h hinv y x (by omega) (by omega)
        exact ⟨_, by simp only [atOffset, hf, Bool.false_eq_true, if_false]; exact e, p0, p4⟩
    simp only [hi]
    rw [Go.wrapInt_eq (i + 1) (by omega) (by omega), Go.wrapInt_eq (i + 2) (by omega) (by omega),
      Go.wrapInt_eq (i + 3) (by omega) (by omega)]
    obtain ⟨v0, e0⟩ := index_some d.pixels i (by omega) (by omega)
    obtain ⟨v1, e1⟩ := index_some d.pixels (i + 1) (by omega) (by omega)
    obtain ⟨v2, e2⟩ := index_some d.pixels (i + 2) (by omega) (by omega)
    obtain ⟨v3, e3⟩ := index_some d.pixels (i + 3) (by omega) (by omega)
    rw [e0, e1, e2, e3]
    exact ⟨_, rfl⟩

/-- Under the device invariant `Set` never faults on a device that is not
flipped. -/
theorem Set_total_not_flipped (d : Device) (w h : Nat) (hinv : Invariant d w h)
    (hflip : d.flipped = false) (x y : Int) (c : Color) :
    ∃ d1, Set d x y c = some d1 := by
  unfold Set
  split
  · next hin =>
    split
    · have hcap := hinv.2.2.2.2
      obtain ⟨i, hi, h0, h4⟩ : ∃ i : Int, setOffset d x y = i ∧ 0 ≤ i ∧
          i + 4 ≤ d.pixels.length := by
        have hf := hinv.1
        have hb := hinv.2.1
        have hw : ¬ h > w := by
          intro hw
          rw [hflip] at hf
          simp [hw] at hf
        simp only [hw, if_false, Rect_origin] at hb
        rw [hb] at hin
        simp only at hin
        obtain ⟨e, p0, p4⟩ := offset_in_buffer d w h hinv y x (by omega) (by omega)
        exact ⟨_, by simp only [setOffset, hflip, Bool.false_eq_true, if_false]; exact e, p0, p4⟩
      simp only [hi]
      rw [Go.wrapInt_eq (i + 1) (by omega) (by omega),
        Go.wrapInt_eq (i + 2) (by omega) (by omega),
        Go.wrapInt_eq (i + 3) (by omega) (by omega)]
      rw [Go.store_eq _ _ _ (by omega) (by omega)]
      simp only
      rw [Go.store_eq _ _ _ (by omega) (by simp; omega)]
      simp only
      rw [Go.store_eq _ _ _ (by omega) (by simp; omega)]
      simp only
      rw [Go.store_eq _ _ _ (by omega) (by simp; omega)]
      exact ⟨_, rfl⟩
    · exact ⟨_, rfl⟩
  · exact ⟨_, rfl⟩

/-- Under the device invariant `Set` never faults on a flipped device whose pitch
is moreover at least 4 x the width of its bounds (the height of the mode). -/
theorem Set_total_wide_pitch (d : Device) (w h : Nat) (hinv : Invariant d w h)
    (hflip : d.flipped = true) (hwide : 4 * d.bounds.Dx ≤ d.pitch) (x y : Int) (c : Color) :
    ∃ d1, Set d x y c = some d1 := by
  unfold Set
  split
  · next hin =>
    split
    · have hcap := hinv.2.2.2.2
      have hbuf := hinv.2.2.2.1
      obtain ⟨i, hi, h0, h4⟩ : ∃ i : Int, setOffset d x y = i ∧ 0 ≤ i ∧
          i + 4 ≤ d.pixels.length := by
        have hf := hinv.1
        have hb := hinv.2.1
        have hw : h > w := by
          rw [hflip] at hf
          exact of_decide_eq_true hf.symm
        simp only [hw, if_true, Rect_origin] at hb
        rw [hb] at hin
        have hdx : d.bounds.Dx = h := by simp [GoImage.Rectangle.Dx, hb]
        rw [hdx] at hwide
        simp only at hin
        have hp0 : 0 ≤ d.pitch := by omega
        have h1 : 0 ≤ x * d.pitch := Int.mul_nonneg hin.1 hp0
        have h2 : x * d.pitch ≤ ((h : Int) - 1) * d.pitch :=
          Int.mul_le_mul_of_nonneg_right (by omega) hp0
        have h3 : ((h : Int) - 1) * d.pitch = d.pitch * h - d.pitch := by ring
        have hMaxY : d.bounds.Max.Y = w := by rw [hb]
        refine ⟨x * d.pitch + 4 * ((w : Int) - y), ?_, by omega, by omega⟩
        simp only [setOffset, hflip, if_true, hMaxY]
        rw [Go.wrapInt_eq ((w : Int) - y) (by omega) (by omega),
          Go.wrapInt_eq (x * d.pitch) (by omega) (by omega),
          Go.wrapInt_eq (4 * ((w : Int) - y)) (by omega) (by omega),
          Go.wrapInt_eq _ (by omega) (by omega)]
      simp only [hi]
      rw [Go.wrapInt_eq (i + 1) (by omega) (by omega),
        Go.wrapInt_eq (i + 2) (by omega) (by omega),
        Go.wrapInt_eq (i + 3) (by omega) (by omega)]
      rw [Go.store_eq _ _ _ (by omega) (by omega)]
      simp only
      rw [Go.store_eq _ _ _ (by omega) (by simp; omega)]
      simp only
      rw [Go.store_eq _ _ _ (by omega) (by simp; omega)]
      simp only
      rw [Go.store_eq _ _ _ (by omega) (by simp; omega)]
      exact ⟨_, rfl⟩
    · exact ⟨_, rfl⟩
  · exact ⟨_, rfl⟩

end Fb32bpp

/-! ## The dirty flag of a canvas -/

/-- Claim C14 as stated fails for `Resize`: on a fresh canvas, and on a canvas
with content that has been repainted, `Resize` changes the size (and lays the
content out again) and leaves the dirty flag clear. -/
theorem canvas_resize_leaves_clean :
    NewCanvas.dirty = false ∧
    (NewCanvas.Resize 4 ⟨20, 20⟩).size = ⟨20, 20⟩ ∧
    (NewCanvas.Resize 4 ⟨20, 20⟩).dirty = false ∧
    Scenario.paintedCanvas.content = some ⟨⟨4, 3⟩, ⟨4, 4⟩, ⟨4, 3⟩, true⟩ ∧
    Scenario.paintedCanvas.dirty = false ∧
    (Scenario.paintedCanvas.Resize 4 ⟨20, 20⟩).content = some ⟨⟨12, 12⟩, ⟨4, 4⟩, ⟨4, 3⟩, true⟩ ∧
    (Scenario.paintedCanvas.Resize 4 ⟨20, 20⟩).dirty = false := by
  refine ⟨rfl, rfl, rfl, rfl, rfl, rfl, rfl⟩

namespace Linuxfb

/-- The method `Resize` does not touch the dirty flag. -/
theorem Resize_dirty (padding : Int) (c : fbCanvas) (size : Size) :
    (c.Resize padding size).dirty = c.dirty := by
  unfold fbCanvas.Resize
  simp only
  cases c.content with
  | none => rfl
  | some content =>
    simp only
    split <;> rfl

/-- The method `SetContent` with a nil content returns before `setDirty`: the
content is dropped and the dirty flag is left as it was. -/
theorem SetContent_nil (padding : Int) (c : fbCanvas) :
    (c.SetContent padding none).content = none ∧
    (c.SetContent padding none).dirty = c.dirty := ⟨rfl, rfl⟩

/-- No mutating call on a canvas clears a dirty flag that is set. -/
theorem dirty_kept_by_mutators (padding : Int) (c : fbCanvas) (call : CanvasCall)
    (h : c.dirty = true) : (c.call padding call).dirty = true := by
  cases call with
  | SetContent content =>
    cases content with
    | none => exact h
    | some content => rfl
  | Resize size => simp only [fbCanvas.call, Resize_dirty]; exact h
  | SetScale scale => rfl
  | Refresh => rfl
  | SetPadded padded =>
    simp only [fbCanvas.call, fbCanvas.SetPadded, Resize_dirty]; exact h

end Linuxfb

/-- Claim C14, amended: for every canvas state, after `SetContent` with a non-nil
content, after `SetScale` and after `Refresh` the dirty flag is set; `Resize`
and `SetPadded` leave the flag as it was; no mutating call clears a flag that
is set; `repaintWindow` records the blit and clears the flag of the canvas it
painted. -/
theorem canvas_dirty_flag (padding : Int) (c : fbCanvas) (content : CanvasObject)
    (scale : Nat) (size : Size) (padded : Bool) (s : Screen) (w : Nat) :
    (c.SetContent padding (some content)).dirty = true ∧
    (c.SetScale scale).dirty = true ∧
    c.Refresh.dirty = true ∧
    (c.Resize padding size).dirty = c.dirty ∧
    (c.SetPadded padding padded).dirty = c.dirty ∧
    (∀ call, c.dirty = true → (c.call padding call).dirty = true) ∧
    (repaintWindow s w).blits = s.blits ++ [w] ∧
    ((repaintWindow s w).canvas w).dirty = false := by
  refine ⟨rfl, rfl, rfl, Linuxfb.Resize_dirty padding c size, ?_,
    fun call h => Linuxfb.dirty_kept_by_mutators padding c call h, rfl, ?_⟩
  · simp only [fbCanvas.SetPadded, Linuxfb.Resize_dirty]
  · simp [repaintWindow, fbCanvas.setDirty]

/-- The amended claim C14 on the repainted canvas with content, and on a dirty
canvas that is resized. -/
theorem canvas_dirty_flag_witness :
    (Scenario.paintedCanvas.SetScale 7).dirty = true ∧
    Scenario.paintedCanvas.Refresh.dirty = true ∧
    (Scenario.paintedCanvas.Resize 4 ⟨20, 20⟩).dirty = false ∧
    (Scenario.paintedCanvas.Refresh.call 4 (.Resize ⟨20, 20⟩)).dirty = true ∧
    ((repaintWindow Scenario.hiddenDirty 0).canvas 0).dirty = false :=
  ⟨(canvas_dirty_flag 4 Scenario.paintedCanvas Scenario.box 7 ⟨20, 20⟩ true
      Scenario.hiddenDirty 0).2.1,
   (canvas_dirty_flag 4 Scenario.paintedCanvas Scenario.box 7 ⟨20, 20⟩ true
      Scenario.hiddenDirty 0).2.2.1,
   (canvas_dirty_flag 4 Scenario.paintedCanvas Scenario.box 7 ⟨20, 20⟩ true
      Scenario.hiddenDirty 0).2.2.2.1,
   (canvas_dirty_flag 4 Scenario.paintedCanvas.Refresh Scenario.box 7 ⟨20, 20⟩ true
      Scenario.hiddenDirty 0).2.2.2.2.2.1 (.Resize ⟨20, 20⟩) rfl,
   (canvas_dirty_flag 4 Scenario.paintedCanvas Scenario.box 7 ⟨20, 20⟩ true
      Scenario.hiddenDirty 0).2.2.2.2.2.2.2⟩

/-! ## The draw loop -/

namespace Linuxfb

/-- One step of the tick leaves the windows alone. -/
theorem drawWindow_world (s : Screen) (p : Nat) : (drawWindow s p).world = s.world := by
  unfold drawWindow
  simp only
  split <;> rfl

/-- Handling one window leaves the canvas and the blit count of every other window alone. -/
theorem drawWindow_other (s : Screen) (p w : Nat) (h : p ≠ w) :
    (drawWindow s p).canvas w = s.canvas w ∧
    (drawWindow s p).blits.count w = s.blits.count w := by
  unfold drawWindow
  simp only
  split
  · exact ⟨rfl, rfl⟩
  · constructor
    · simp only [repaintWindow]
      exact Function.update_noteq (Ne.symm h) _ _
    · simp only [repaintWindow, List.count_append]
      rw [List.count_singleton]
      simp [h]

/-- A window that is not visible or not dirty is skipped. -/
theorem drawWindow_skipped (s : Screen) (w : Nat)
    (h : (s.world.win w).visible = false ∨ (s.canvas w).dirty = false) :
    drawWindow s w = s := by
  unfold drawWindow
  simp only [fbCanvas.isDirty]
  rcases h with h | h <;> simp [h]

/-- A visible dirty window is blitted once and its dirty flag is cleared. -/
theorem drawWindow_painted (s : Screen) (w : Nat)
    (hvis : (s.world.win w).visible = true) (hdirty : (s.canvas w).dirty = true) :
    ((drawWindow s w).canvas w).dirty = false ∧
    (drawWindow s w).blits.count w = s.blits.count w + 1 := by
  unfold drawWindow
  simp only [fbCanvas.isDirty, hvis, hdirty, Bool.not_true, Bool.or_self, Bool.false_eq_true,
    if_false]
  constructor
  · simp [repaintWindow, fbCanvas.setDirty]
  · simp [repaintWindow, List.count_append]

/-- The loop over the windows leaves the windows alone. -/
theorem drawFold_world (l : List Nat) (s : Screen) : (l.foldl drawWindow s).world = s.world := by
  induction l generalizing s with
  | nil => rfl
  | cons p l ih => rw [List.foldl_cons, ih, drawWindow_world]

/-- The loop over the windows never blits a window that is not visible or not dirty and
leaves its dirty flag alone. -/
theorem drawFold_skipped (l : List Nat) (s : Screen) (w : Nat)
    (h : (s.world.win w).visible = false ∨ (s.canvas w).dirty = false) :
    ((l.foldl drawWindow s).canvas w).dirty = (s.canvas w).dirty ∧
    (l.foldl drawWindow s).blits.count w = s.blits.count w := by
  induction l generalizing s with
  | nil => exact ⟨rfl, rfl⟩
  | cons p l ih =>
    rw [List.foldl_cons]
    by_cases e : p = w
    · subst e
      rw [drawWindow_skipped s p h]
      exact ih s h
    · obtain ⟨hc, hb⟩ := drawWindow_other s p w e
      have h1 : ((drawWindow s p).world.win w).visible = false ∨
          ((drawWindow s p).canvas w).dirty = false := by
        rw [drawWindow_world, hc]; exact h
      obtain ⟨i1, i2⟩ := ih (drawWindow s p) h1
      rw [i1, i2, hc, hb]
      exact ⟨rfl, rfl⟩

/-- The loop over a list that holds a visible dirty window blits it exactly once and
clears its dirty flag. -/
theorem drawFold_painted (l : List Nat) (s : Screen) (w : Nat) (hw : w ∈ l)
    (hvis : (s.world.win w).visible = true) (hdirty : (s.canvas w).dirty = true) :
    ((l.foldl drawWindow s).canvas w).dirty = false ∧
    (l.foldl drawWindow s).blits.count w = s.blits.count w + 1 := by
  induction l generalizing s with
  | nil => simp at hw
  | cons p l ih =>
    rw [List.foldl_cons]
    by_cases e : p = w
    · subst e
      obtain ⟨hc, hb⟩ := drawWindow_painted s p hvis hdirty
      obtain ⟨i1, i2⟩ := drawFold_skipped l (drawWindow s p) p (Or.inr hc)
      rw [i1, i2, hc, hb]
      exact ⟨rfl, rfl⟩
    · obtain ⟨hc, hb⟩ := drawWindow_other s p w e
      have hw1 : w ∈ l := by
        rcases List.mem_cons.1 hw with h | h
        · exact absurd h.symm e
        · exact h
      obtain ⟨i1, i2⟩ := ih (drawWindow s p) hw1
        (by rw [drawWindow_world]; exact hvis) (by rw [hc]; exact hdirty)
      rw [i1, i2, hb]
      exact ⟨rfl, rfl⟩

/-- Ticks leave the windows alone. -/
theorem drawTicks_world (n : Nat) (s : Screen) : (drawTicks n s).world = s.world := by
  induction n generalizing s with
  | zero => rfl
  | succ n ih => rw [drawTicks, ih, drawTick, drawFold_world]

/-- However many ticks pass, a window that is not visible or not dirty is not blitted and
keeps its dirty flag. -/
theorem drawTicks_skipped (n : Nat) (s : Screen) (w : Nat)
    (h : (s.world.win w).visible = false ∨ (s.canvas w).dirty = false) :
    ((drawTicks n s).canvas w).dirty = (s.canvas w).dirty ∧
    (drawTicks n s).blits.count w = s.blits.count w := by
  induction n generalizing s with
  | zero => exact ⟨rfl, rfl⟩
  | succ n ih =>
    obtain ⟨hc, hb⟩ := drawFold_skipped (windowList s.world) s w h
    have h1 : ((drawTick s).world.win w).visible = false ∨
        ((drawTick s).canvas w).dirty = false := by
      unfold drawTick
      rw [drawFold_world, hc]; exact h
    obtain ⟨i1, i2⟩ := ih (drawTick s) h1
    rw [drawTicks, i1, i2]
    exact ⟨hc, hb⟩

/-- Showing a window does not touch any dirty flag. -/
theorem Screen_Show_dirty (s : Screen) (w p : Nat) :
    ((s.Show w).canvas p).dirty = (s.canvas p).dirty := by
  unfold Screen.Show
  simp only
  cases (s.canvas w).content with
  | none => rfl
  | some content =>
    by_cases e : p = w
    · subst e; simp
    · simp only [Function.update_noteq e]

end Linuxfb

/-- Claim C15: with one tick of the draw loop as a step over the window list, a
listed window that is not visible and whose canvas is dirty is not blitted by
any number of ticks, and stays dirty and not visible; once it is shown, the
next tick blits it exactly once and clears its dirty flag, and no later tick
blits it again. -/
theorem redraw_tick_gating (s : Screen) (w : Nat)
    (hlisted : w ∈ s.world.driver.windows)
    (hvis : (s.world.win w).visible = false)
    (hdirty : (s.canvas w).dirty = true) :
    (∀ n, (drawTicks n s).blits.count w = s.blits.count w ∧
      ((drawTicks n s).canvas w).dirty = true ∧
      ((drawTicks n s).world.win w).visible = false) ∧
    (∀ n, (drawTick ((drawTicks n s).Show w)).blits.count w = s.blits.count w + 1 ∧
      ((drawTick ((drawTicks n s).Show w)).canvas w).dirty = false ∧
      ∀ m, (drawTicks m (drawTick ((drawTicks n s).Show w))).blits.count w
        = s.blits.count w + 1) := by
  have hidden : ∀ n, (drawTicks n s).blits.count w = s.blits.count w ∧
      ((drawTicks n s).canvas w).dirty = true ∧
      ((drawTicks n s).world.win w).visible = false := by
    intro n
    obtain ⟨h1, h2⟩ := Linuxfb.drawTicks_skipped n s w (Or.inl hvis)
    exact ⟨h2, by rw [h1]; exact hdirty, by rw [Linuxfb.drawTicks_world]; exact hvis⟩
  refine ⟨hidden, ?_⟩
  intro n
  obtain ⟨hb, hd, -⟩ := hidden n
  have hw : w ∈ windowList ((drawTicks n s).Show w).world := by
    show w ∈ (Show (drawTicks n s).world w).driver.windows
    rw [Linuxfb.Show_windows, Linuxfb.drawTicks_world]; exact hlisted
  have hv : ((((drawTicks n s).Show w).world).win w).visible = true :=
    Linuxfb.Show_visible _ w
  have hdd : ((((drawTicks n s).Show w).canvas) w).dirty = true := by
    rw [Linuxfb.Screen_Show_dirty]; exact hd
  obtain ⟨p1, p2⟩ := Linuxfb.drawFold_painted _ ((drawTicks n s).Show w) w hw hv hdd
  have p2' : (drawTick ((drawTicks n s).Show w)).blits.count w = s.blits.count w + 1 := by
    unfold drawTick
    rw [p2]
    show List.count w (drawTicks n s).blits + 1 = _
    rw [hb]
  refine ⟨p2', p1, ?_⟩
  intro m
  obtain ⟨-, q2⟩ := Linuxfb.drawTicks_skipped m (drawTick ((drawTicks n s).Show w)) w (Or.inr p1)
  rw [q2, p2']

/-- Claim C15 on a window created, refreshed and never shown: three ticks blit
nothing and leave it dirty; after `Show` the next tick blits it once, and five
more ticks add nothing. -/
theorem redraw_tick_gating_witness :
    (drawTicks 3 Scenario.hiddenDirty).blits.count 0 = 0 ∧
    ((drawTicks 3 Scenario.hiddenDirty).canvas 0).dirty = true ∧
    (drawTick ((drawTicks 3 Scenario.hiddenDirty).Show 0)).blits.count 0 = 1 ∧
    ((drawTick ((drawTicks 3 Scenario.hiddenDirty).Show 0)).canvas 0).dirty = false ∧
    (drawTicks 5 (drawTick ((drawTicks 3 Scenario.hiddenDirty).Show 0))).blits.count 0 = 1 :=
  ⟨((redraw_tick_gating Scenario.hiddenDirty 0 (by decide) rfl rfl).1 3).1,
   ((redraw_tick_gating Scenario.hiddenDirty 0 (by decide) rfl rfl).1 3).2.1,
   ((redraw_tick_gating Scenario.hiddenDirty 0 (by decide) rfl rfl).2 3).1,
   ((redraw_tick_gating Scenario.hiddenDirty 0 (by decide) rfl rfl).2 3).2.1,
   ((redraw_tick_gating Scenario.hiddenDirty 0 (by decide) rfl rfl).2 3).2.2 5⟩
